import Mathlib

/-!
Verification of the centroid-tracking core of the methyl-opencv-suite
repository: `MovingAverage` (src/mos/utils/classes/moving_average.py) and
`CentroidTracker` (src/mos/utils/classes/centroid_tracker.py), together with
the centroid helper `midpoint_from_points` (src/mos/utils/utils.py).

Modelling conventions:
* Real-valued quantities (box coordinates, distances, averages) are rationals;
  centroids are integer pairs because the code stores them in an `int`-dtype
  numpy array; numpy arrays of shape (2,) become pairs.
* Python `OrderedDict`s become association lists (`List (ℕ × α)`): `d[k] = v`
  replaces in place when the key exists and appends otherwise, `del d[k]`
  filters the key out.  This reproduces insertion order exactly.
* The Euclidean distance test `D[row, col] > max_distance` is expressed on
  squared distances: `sqrt s > m ↔ m < 0 ∨ s > m * m` for `s ≥ 0`, which is
  exact (no square roots are needed anywhere else).
* numpy's `argsort` of the per-row minima is modelled as a stable insertion
  sort (ties keep the natural row order); `argmin` takes the first minimum,
  as numpy does.
-/

/-! ### Association lists with OrderedDict semantics -/

/-- Keys of an association list, in insertion order. -/
def alKeys {α : Type} (l : List (ℕ × α)) : List ℕ := l.map Prod.fst

/-- Lookup (`d[k]`, totalised to `Option`): the value at the first occurrence
of the key. -/
def alGet {α : Type} : List (ℕ × α) → ℕ → Option α
  | [], _ => none
  | p :: l, k => if p.1 = k then some p.2 else alGet l k

/-- Assignment `d[k] = v`: replace in place if present, append otherwise. -/
def alSet {α : Type} (l : List (ℕ × α)) (k : ℕ) (v : α) : List (ℕ × α) :=
  if k ∈ alKeys l then l.map (fun p => if p.1 = k then (k, v) else p)
  else l ++ [(k, v)]

/-- Deletion `del d[k]`. -/
def alErase {α : Type} (l : List (ℕ × α)) (k : ℕ) : List (ℕ × α) :=
  l.filter (fun p => p.1 ≠ k)

/-! ### MovingAverage (moving_average.py)

The deque is kept with its left end (index 0) at the head of the list, so
`append` adds at the tail and, when the `maxlen` is reached, the head is
dropped — exactly `collections.deque` with `maxlen=window`. -/

/-- State of an initialised `MovingAverage`: `window`, `entry_deque`,
`average`.  (`init`, `data_shape` are carried by the type.) -/
structure MovingAverage (V : Type) where
  window : ℕ
  entry_deque : List V
  average : V
deriving DecidableEq

/-- Model of `MovingAverage._initialise`: the deque starts as `window` zero vectors,
then the initial entry is pushed with `appendleft` (dropping the rightmost
element when the deque is full); the running average starts at zero.  This is
also the state after `__init__` when `initial_entry` is given. -/
def MovingAverage.initialise {V : Type} [AddCommGroup V] (window : ℕ)
    (entry : V) : MovingAverage V :=
  { window := window
    entry_deque := (entry :: List.replicate window 0).take window
    average := 0 }

/-- Model of `MovingAverage.update` on an initialised instance: incremental mean update
`average += (entry - oldest) / window`, then `append` under `maxlen`.  For
`window = 0` the source raises instead (it indexes `entry_deque[0]` on an
empty `maxlen=0` deque), so this totalised model is faithful only for
positive windows; every theorem about `update` below assumes `0 < window`. -/
def MovingAverage.update {V : Type} [AddCommGroup V] [Module ℚ V]
    (m : MovingAverage V) (entry : V) : MovingAverage V :=
  let oldest := m.entry_deque.headD 0
  let dq := m.entry_deque ++ [entry]
  { m with
    average := m.average + ((m.window : ℚ))⁻¹ • (entry - oldest)
    entry_deque := dq.drop (dq.length - m.window) }

/-! ### Geometry helpers (utils.py) -/

/-- Truncation toward zero, the effect of numpy's cast from float to an
integer dtype (both `astype(points.dtype)` on integer input and assignment
into the `int`-dtype `input_centroids` array). -/
def intTrunc (q : ℚ) : ℤ := if q < 0 then ⌈q⌉ else ⌊q⌋

/-- Model of `midpoint_from_points [[x1, y1], [x2, y2]]`: the per-coordinate mean of
the two points (exact value, before any integer cast). -/
def midpoint_from_points (p q : ℚ × ℚ) : ℚ × ℚ :=
  ((p.1 + q.1) / 2, (p.2 + q.2) / 2)

/-- A detection box `(x1, y1, x2, y2)`. -/
abbrev Rect : Type := ℚ × ℚ × ℚ × ℚ

/-- The centroid the tracker computes for a box: the midpoint of its diagonal
corners, truncated toward zero by the `int`-dtype storage in
`CentroidTracker.update`. -/
def centroidOf (r : Rect) : ℤ × ℤ :=
  (intTrunc (midpoint_from_points (r.1, r.2.1) (r.2.2.1, r.2.2.2)).1,
   intTrunc (midpoint_from_points (r.1, r.2.1) (r.2.2.1, r.2.2.2)).2)

/-- Squared Euclidean distance between two integer centroids. -/
def squaredDist (a b : ℤ × ℤ) : ℤ :=
  (a.1 - b.1) ^ 2 + (a.2 - b.2) ^ 2

/-! ### CentroidTracker state (centroid_tracker.py) -/

/-- The whole mutable state of a `CentroidTracker`.  The parallel
`OrderedDict`s of the source are parallel association lists. -/
structure CentroidTracker where
  next_id : ℕ
  tracked_centroids : List (ℕ × (ℤ × ℤ))
  vels : List (ℕ × (ℚ × ℚ))
  smoothed_vels : List (ℕ × (ℚ × ℚ))
  smoothed_vel_handlers : List (ℕ × MovingAverage (ℚ × ℚ))
  smoothed_vel_window : ℕ
  confidences : List (ℕ × ℤ)
  rects : List (ℕ × Rect)
  missing_count : List (ℕ × ℕ)
  max_missing_count : ℤ
  max_distance : ℚ
deriving DecidableEq

namespace CentroidTracker

/-- Model of `CentroidTracker.__init__`: stores the three configuration values without
any validation and starts with empty maps and `next_id = 0`. -/
def init (max_missing_count : ℤ) (max_distance : ℚ)
    (smoothed_vel_window : ℕ) : CentroidTracker :=
  { next_id := 0
    tracked_centroids := []
    vels := []
    smoothed_vels := []
    smoothed_vel_handlers := []
    smoothed_vel_window := smoothed_vel_window
    confidences := []
    rects := []
    missing_count := []
    max_missing_count := max_missing_count
    max_distance := max_distance }

/-- Model of `CentroidTracker.register`. -/
def register (s : CentroidTracker) (c : ℤ × ℤ) : CentroidTracker :=
  { s with
    tracked_centroids := alSet s.tracked_centroids s.next_id c
    missing_count := alSet s.missing_count s.next_id 0
    vels := alSet s.vels s.next_id (0, 0)
    smoothed_vels := alSet s.smoothed_vels s.next_id (0, 0)
    smoothed_vel_handlers := alSet s.smoothed_vel_handlers s.next_id
      (MovingAverage.initialise s.smoothed_vel_window (0, 0))
    confidences := alSet s.confidences s.next_id 0
    rects := alSet s.rects s.next_id (0, 0, 0, 0)
    next_id := s.next_id + 1 }

/-- Model of `CentroidTracker.deregister`. -/
def deregister (s : CentroidTracker) (id : ℕ) : CentroidTracker :=
  { s with
    tracked_centroids := alErase s.tracked_centroids id
    missing_count := alErase s.missing_count id
    vels := alErase s.vels id
    smoothed_vels := alErase s.smoothed_vels id
    smoothed_vel_handlers := alErase s.smoothed_vel_handlers id
    confidences := alErase s.confidences id
    rects := alErase s.rects id }

/-- One step of the "mark missing" loop shared by the empty-detection path and
the unmatched-rows path: `missing_count += 1`, `confidences -= 1`, then
deregister when `missing_count > max_missing_count` (strict test). -/
def markMissing (s : CentroidTracker) (id : ℕ) : CentroidTracker :=
  if (((alGet s.missing_count id).getD 0 + 1 : ℕ) : ℤ) > s.max_missing_count then
    ({ s with
      missing_count := alSet s.missing_count id
        ((alGet s.missing_count id).getD 0 + 1)
      confidences := alSet s.confidences id
        ((alGet s.confidences id).getD 0 - 1) } : CentroidTracker).deregister id
  else
    { s with
      missing_count := alSet s.missing_count id
        ((alGet s.missing_count id).getD 0 + 1)
      confidences := alSet s.confidences id
        ((alGet s.confidences id).getD 0 - 1) }

end CentroidTracker

/-! ### Greedy matching (the `rows`/`cols` computation of `update`) -/

/-- Minimum of a list of squared distances (rows are nonempty in the matching
path, so the default is never relevant there). -/
def rowMin (l : List ℤ) : ℤ := l.foldl min (l.headD 0)

/-- Index of the first minimum of a list, as numpy's `argmin`. -/
def argminFrom : ℕ → ℤ → ℕ → List ℤ → ℕ
  | bi, _, _, [] => bi
  | bi, bv, i, x :: xs =>
      if x < bv then argminFrom i x (i + 1) xs else argminFrom bi bv (i + 1) xs

/-- Model of `argmin` over a row (first index attaining the minimum). -/
def argminIdx : List ℤ → ℕ
  | [] => 0
  | x :: xs => argminFrom 0 x 1 xs

/-- Stable insertion of an index into a list sorted by `key`. -/
def insertByKey (key : ℕ → ℤ) (i : ℕ) : List ℕ → List ℕ
  | [] => [i]
  | j :: js => if key i < key j then i :: j :: js else j :: insertByKey key i js

/-- Stable sort of indices by `key`, ascending — the model of
`D.min(axis=1).argsort()` with ties broken by natural row order. -/
def sortByKey (key : ℕ → ℤ) : List ℕ → List ℕ
  | [] => []
  | i :: is => insertByKey key i (sortByKey key is)

/-- The greedy acceptance loop over `zip(rows, cols)`: a pair is skipped when
its row or column was already consumed or when the gate `tooFar` holds;
accepted pairs consume their row and column.  (Acceptance depends only on the
distance matrix and the used sets, not on the tracker state, so the pairs can
be computed before the state updates are applied.) -/
def selectPairs (tooFar : ℕ → ℕ → Bool) :
    List (ℕ × ℕ) → List ℕ → List ℕ → List (ℕ × ℕ)
  | [], _, _ => []
  | (r, c) :: rest, usedR, usedC =>
      if r ∈ usedR ∨ c ∈ usedC then selectPairs tooFar rest usedR usedC
      else if tooFar r c then selectPairs tooFar rest usedR usedC
      else (r, c) :: selectPairs tooFar rest (r :: usedR) (c :: usedC)

/-- Predicate `sqrt s > m` for `s ≥ 0`, expressed without square roots: the model of
`D[row, col] > self.max_distance` on the squared distance `s`. -/
def distGtMax (s : ℤ) (m : ℚ) : Bool :=
  decide (m < 0) || decide ((s : ℚ) > m * m)

namespace CentroidTracker

/-- The squared-distance matrix `D` (row = tracked centroid, column = input
centroid), as `dist.cdist` squared. -/
def dMat (tracked inputs : List (ℤ × ℤ)) : List (List ℤ) :=
  tracked.map (fun t => inputs.map (fun c => squaredDist t c))

/-- The accepted (row, column) pairs of one matching phase, a pure function of
the tracked centroids, the input centroids and `max_distance`. -/
def matchPairsOf (tracked inputs : List (ℤ × ℤ)) (max_distance : ℚ) :
    List (ℕ × ℕ) :=
  let D := dMat tracked inputs
  let rows := sortByKey (fun i => rowMin (D.getD i [])) (List.range tracked.length)
  let cols := rows.map (fun r => argminIdx (D.getD r []))
  selectPairs (fun r c => distGtMax ((D.getD r []).getD c 0) max_distance)
    (rows.zip cols) [] []

/-- The accepted pairs of `update s rs_in` (empty outside the matching path). -/
def pairsOf (s : CentroidTracker) (rs_in : List Rect) : List (ℕ × ℕ) :=
  matchPairsOf (s.tracked_centroids.map Prod.snd) (rs_in.map centroidOf)
    s.max_distance

/-- The matched pairs of `update s rs_in` (empty outside the matching path). -/
def matchPairs (s : CentroidTracker) (rs_in : List Rect) : List (ℕ × ℕ) :=
  if rs_in = [] then []
  else if s.tracked_centroids = [] then []
  else s.pairsOf rs_in

/-- The body of the matched-pair branch of the matching loop: update
instantaneous and smoothed velocities, centroid, rect, reset `missing_count`,
`confidences += 2`.  `ids` is the key list captured before the loop. -/
def applyMatch (ids : List ℕ) (inputC : List (ℤ × ℤ)) (rs_in : List Rect)
    (s : CentroidTracker) (p : ℕ × ℕ) : CentroidTracker :=
  let centroid_id := ids.getD p.1 0
  let newC := inputC.getD p.2 (0, 0)
  let oldC := (alGet s.tracked_centroids centroid_id).getD (0, 0)
  let v : ℚ × ℚ := (((oldC.1 - newC.1 : ℤ) : ℚ), ((oldC.2 - newC.2 : ℤ) : ℚ))
  let h := ((alGet s.smoothed_vel_handlers centroid_id).getD
    (MovingAverage.initialise s.smoothed_vel_window (0, 0))).update v
  { s with
    vels := alSet s.vels centroid_id v
    smoothed_vels := alSet s.smoothed_vels centroid_id h.average
    smoothed_vel_handlers := alSet s.smoothed_vel_handlers centroid_id h
    tracked_centroids := alSet s.tracked_centroids centroid_id newC
    rects := alSet s.rects centroid_id (rs_in.getD p.2 (0, 0, 0, 0))
    missing_count := alSet s.missing_count centroid_id 0
    confidences := alSet s.confidences centroid_id
      ((alGet s.confidences centroid_id).getD 0 + 2) }

/-- The state after the matching loop (the fold of `applyMatch` over the
accepted pairs, with the key list and the input centroids captured before the
loop, as in the source). -/
def matchFold (s : CentroidTracker) (rs_in : List Rect) : CentroidTracker :=
  (s.pairsOf rs_in).foldl
    (applyMatch (alKeys s.tracked_centroids) (rs_in.map centroidOf) rs_in) s

/-- Model of `set(range(0, D.shape[0])).difference(used_rows)`, iterated in
ascending order (the per-id state updates for distinct ids commute, so the
iteration order of the Python set does not change the result). -/
def unused_rows (pairs : List (ℕ × ℕ)) (nRows : ℕ) : List ℕ :=
  (List.range nRows).filter (fun r => ¬ r ∈ pairs.map Prod.fst)

/-- Model of `set(range(0, D.shape[1])).difference(used_cols)`, ascending. -/
def unused_cols (pairs : List (ℕ × ℕ)) (nCols : ℕ) : List ℕ :=
  (List.range nCols).filter (fun c => ¬ c ∈ pairs.map Prod.snd)

/-- Model of `CentroidTracker.update`.  The three paths of the source: empty
input, bootstrap (no tracked centroids), and greedy matching followed by
either the unmatched-rows handling (when `D.shape[0] >= D.shape[1]`) or the
unmatched-columns registration.  The returned snapshot is the final state
(the source returns its live maps). -/
def update (s : CentroidTracker) (rs_in : List Rect) : CentroidTracker :=
  if rs_in = [] then
    (alKeys s.missing_count).foldl markMissing s
  else if s.tracked_centroids = [] then
    (rs_in.map centroidOf).foldl register s
  else if rs_in.length ≤ s.tracked_centroids.length then
    (unused_rows (s.pairsOf rs_in) s.tracked_centroids.length).foldl
      (fun t r => t.markMissing ((alKeys s.tracked_centroids).getD r 0))
      (s.matchFold rs_in)
  else
    (CentroidTracker.unused_cols (s.pairsOf rs_in) rs_in.length).foldl
      (fun t c => t.register ((rs_in.map centroidOf).getD c (0, 0)))
      (s.matchFold rs_in)

/-- The track ids matched by `update s rs_in`. -/
def matchedIds (s : CentroidTracker) (rs_in : List Rect) : List ℕ :=
  (s.matchPairs rs_in).map (fun p => (alKeys s.tracked_centroids).getD p.1 0)

/-- The lock-step invariant of the parallel per-track maps: every map has the
same key list as `tracked_centroids` (so an id is a key of all of them or of
none), the keys are distinct, and all keys are below `next_id` (so fresh
registrations never collide). -/
def Aligned (s : CentroidTracker) : Prop :=
  alKeys s.missing_count = alKeys s.tracked_centroids ∧
  alKeys s.vels = alKeys s.tracked_centroids ∧
  alKeys s.smoothed_vels = alKeys s.tracked_centroids ∧
  alKeys s.smoothed_vel_handlers = alKeys s.tracked_centroids ∧
  alKeys s.confidences = alKeys s.tracked_centroids ∧
  alKeys s.rects = alKeys s.tracked_centroids ∧
  (alKeys s.tracked_centroids).Nodup ∧
  ∀ k ∈ alKeys s.tracked_centroids, k < s.next_id

instance (s : CentroidTracker) : Decidable s.Aligned := by
  unfold Aligned; infer_instance

end CentroidTracker

/-! ### MovingAverage lemmas -/

namespace MovingAverage

variable {V : Type} [AddCommGroup V] [Module ℚ V]

/-- The deque of a zero-seeded instance is all zeros. -/
theorem initialise_zero_deque (W : ℕ) :
    (initialise W (0 : V)).entry_deque = List.replicate W 0 := by
  show ((0 : V) :: List.replicate W 0).take W = List.replicate W 0
  rw [← List.replicate_succ, List.take_replicate]
  rw [Nat.min_eq_left (Nat.le_succ W)]

/-- An initialised instance whose deque is full and whose average is the mean
of the deque contents. -/
def Good (W : ℕ) (m : MovingAverage V) : Prop :=
  m.window = W ∧ m.entry_deque.length = W ∧
    m.average = ((W : ℚ))⁻¹ • m.entry_deque.sum

theorem good_initialise_zero (W : ℕ) : Good W (initialise W (0 : V)) := by
  refine ⟨rfl, ?_, ?_⟩
  · rw [initialise_zero_deque]; exact List.length_replicate W 0
  · rw [initialise_zero_deque]
    simp [initialise]

theorem update_deque_of_full {m : MovingAverage V} (hW : 0 < m.window)
    (h : m.entry_deque.length = m.window) (e : V) :
    (m.update e).entry_deque = m.entry_deque.tail ++ [e] := by
  show (m.entry_deque ++ [e]).drop ((m.entry_deque ++ [e]).length - m.window)
      = m.entry_deque.tail ++ [e]
  have hlen : (m.entry_deque ++ [e]).length - m.window = 1 := by
    simp [List.length_append, h]
  rw [hlen]
  rcases hd : m.entry_deque with _ | ⟨a, t⟩
  · rw [hd] at h; simp at h; omega
  · simp

theorem good_update {W : ℕ} (hW : 0 < W) {m : MovingAverage V}
    (hg : Good W m) (e : V) : Good W (m.update e) := by
  obtain ⟨hw, hlen, havg⟩ := hg
  have hfull : m.entry_deque.length = m.window := by rw [hw, hlen]
  have hdq := update_deque_of_full (hw ▸ hW) hfull e
  rcases hd : m.entry_deque with _ | ⟨a, t⟩
  · rw [hd] at hlen; simp [← hlen] at hW
  · refine ⟨hw, ?_, ?_⟩
    · rw [hdq, hd]
      rw [hd] at hlen
      simp at hlen ⊢
      omega
    · show m.average + ((m.window : ℚ))⁻¹ • (e - m.entry_deque.headD 0)
          = ((W : ℚ))⁻¹ • ((m.update e).entry_deque).sum
      rw [hdq, hd, havg, hw, hd]
      simp only [List.headD_cons, List.tail_cons, List.sum_append,
        List.sum_cons, List.sum_nil, add_zero]
      rw [← smul_add]
      congr 1
      abel

theorem good_foldl {W : ℕ} (hW : 0 < W) {m : MovingAverage V}
    (hg : Good W m) (l : List V) : Good W (l.foldl update m) := by
  induction l generalizing m with
  | nil => exact hg
  | cons e l ih => exact ih (good_update hW hg e)

/-- After feeding `l` (with `l.length ≤ W`) into a zero-seeded window, the
deque is the remaining zeros followed by `l`. -/
theorem foldl_zero_deque {W : ℕ} (hW : 0 < W) (l : List V)
    (hl : l.length ≤ W) :
    (l.foldl update (initialise W (0 : V))).entry_deque
      = List.replicate (W - l.length) 0 ++ l := by
  induction l using List.reverseRecOn with
  | nil => simp [initialise_zero_deque]
  | append_singleton l e ih =>
      have hl' : l.length ≤ W := by
        simp at hl; omega
      have hlt : l.length < W := by
        simp at hl; omega
      have hgood := good_foldl hW (good_initialise_zero (V := V) W) l
      rw [List.foldl_append]
      simp only [List.foldl_cons, List.foldl_nil]
      rw [update_deque_of_full (by rw [hgood.1]; exact hW)
        (by rw [hgood.1]; exact hgood.2.1) e]
      rw [ih hl']
      have hrep : W - l.length = (W - (l.length + 1)) + 1 := by omega
      rw [hrep, List.replicate_succ]
      simp

end MovingAverage

/-! ### Claims C3, C4 (MovingAverage) -/

/-- C3, counterexample: immediately after construction with window 2 and first
sample 5, the window is full (2 entries) but the stored running mean (0) is
not the arithmetic mean of the window contents ([5, 0], mean 5/2). -/
theorem c3_counterexample :
    (MovingAverage.initialise (V := ℚ) 2 5).entry_deque.length = 2 ∧
    (MovingAverage.initialise (V := ℚ) 2 5).average ≠
      ((2 : ℚ))⁻¹ • (MovingAverage.initialise (V := ℚ) 2 5).entry_deque.sum := by
  with_unfolding_all decide

/-- C3, amended: for a MovingAverage whose entry at initialisation is the zero
vector (as every instance created by CentroidTracker is), at every point after
initialization the stored running mean equals the arithmetic mean of the
current contents of the sample window, and the window holds exactly
`window_size` entries. -/
theorem c3_mean_invariant_zero_seed {V : Type} [AddCommGroup V] [Module ℚ V]
    (W : ℕ) (hW : 0 < W) (entries : List V) :
    (entries.foldl MovingAverage.update (MovingAverage.initialise W (0 : V))).entry_deque.length = W ∧
    (entries.foldl MovingAverage.update (MovingAverage.initialise W (0 : V))).average =
      ((W : ℚ))⁻¹ •
        (entries.foldl MovingAverage.update (MovingAverage.initialise W (0 : V))).entry_deque.sum := by
  have h := MovingAverage.good_foldl hW
    (MovingAverage.good_initialise_zero (V := V) W) entries
  exact ⟨h.2.1, h.2.2⟩

theorem c3_mean_invariant_zero_seed_witness :
    0 < 2 ∧
    ((([3, 7] : List ℚ).foldl MovingAverage.update (MovingAverage.initialise 2 (0 : ℚ))).entry_deque.length = 2 ∧
    (([3, 7] : List ℚ).foldl MovingAverage.update (MovingAverage.initialise 2 (0 : ℚ))).average =
      ((2 : ℚ))⁻¹ •
        (([3, 7] : List ℚ).foldl MovingAverage.update (MovingAverage.initialise 2 (0 : ℚ))).entry_deque.sum) :=
  ⟨by decide, c3_mean_invariant_zero_seed 2 (by decide) [3, 7]⟩

/-- C4: for a window of size W seeded with zero vectors, after feeding samples
`s1..sk` with `k ≤ W`, the running mean returned by the k-th update equals
`(s1 + ... + sk) / W`; since every prefix of the sample list satisfies the
same hypotheses, this holds for every call in the sequence. -/
theorem c4_zero_seeded_prefix_mean {V : Type} [AddCommGroup V] [Module ℚ V]
    (W : ℕ) (hW : 0 < W) (l : List V) (hl : l.length ≤ W) :
    (l.foldl MovingAverage.update (MovingAverage.initialise W (0 : V))).average
      = ((W : ℚ))⁻¹ • l.sum := by
  have hgood := MovingAverage.good_foldl hW
    (MovingAverage.good_initialise_zero (V := V) W) l
  rw [hgood.2.2, MovingAverage.foldl_zero_deque hW l hl]
  simp

theorem c4_zero_seeded_prefix_mean_witness :
    0 < 3 ∧ ([(2 : ℚ), 4] : List ℚ).length ≤ 3 ∧
    (([(2 : ℚ), 4] : List ℚ).foldl MovingAverage.update
        (MovingAverage.initialise 3 (0 : ℚ))).average
      = ((3 : ℚ))⁻¹ • ([(2 : ℚ), 4] : List ℚ).sum :=
  ⟨by decide, by decide, c4_zero_seeded_prefix_mean 3 (by decide) [2, 4] (by decide)⟩

/-! ### Claims C5, C7 -/

/-- C5, counterexample: constructing a CentroidTracker with non-positive
`max_missing_count`, `max_distance` and smoothing window does not fail: the
constructor stores the values unchanged, and this particular bootstrap update
(pure registration, which never calls `MovingAverage.update`) still succeeds
and registers a track, exactly as it does in the source. -/
theorem c5_counterexample :
    (CentroidTracker.init (-1) (-1) 0).max_missing_count = -1 ∧
    (CentroidTracker.init (-1) (-1) 0).max_distance = -1 ∧
    (CentroidTracker.init (-1) (-1) 0).smoothed_vel_window = 0 ∧
    ((CentroidTracker.init (-1) (-1) 0).update [(0, 0, 2, 2)]).next_id = 1 := by
  refine ⟨rfl, rfl, rfl, ?_⟩
  with_unfolding_all decide

/-- C5, amended: constructing a CentroidTracker with a non-positive
`max_missing_count`, `max_distance` or smoothing window does not fail with a
configuration error: `__init__` contains no validation at all and stores the
three values unchanged — neither rejected nor clamped — starting from empty
maps and `next_id = 0`.  (With such values, failures can only surface later
inside `update` calls — in the source a zero smoothing window makes the first
matched update raise when `MovingAverage.update` indexes its empty deque —
never at construction.) -/
theorem c5_no_validation (mm : ℤ) (md : ℚ) (w : ℕ) :
    (CentroidTracker.init mm md w).max_missing_count = mm ∧
    (CentroidTracker.init mm md w).max_distance = md ∧
    (CentroidTracker.init mm md w).smoothed_vel_window = w ∧
    (CentroidTracker.init mm md w).next_id = 0 ∧
    (CentroidTracker.init mm md w).tracked_centroids = [] ∧
    (CentroidTracker.init mm md w).missing_count = [] :=
  ⟨rfl, rfl, rfl, rfl, rfl, rfl⟩

/-- Truncation toward zero moves a rational by less than 1, and is exact
precisely on integers. -/
theorem intTrunc_close (q : ℚ) :
    |(intTrunc q : ℚ) - q| < 1 ∧
      (((intTrunc q : ℚ) = q) ↔ ∃ n : ℤ, q = (n : ℚ)) := by
  unfold intTrunc
  split
  · constructor
    · rw [abs_lt]
      constructor
      · have := Int.le_ceil q; linarith
      · have := Int.ceil_lt_add_one q; linarith
    · constructor
      · intro h; exact ⟨⌈q⌉, h.symm⟩
      · rintro ⟨n, rfl⟩; rw [Int.ceil_intCast]
  · constructor
    · rw [abs_lt]
      constructor
      · have := Int.sub_one_lt_floor q; linarith
      · have := Int.floor_le q; linarith
    · constructor
      · intro h; exact ⟨⌊q⌋, h.symm⟩
      · rintro ⟨n, rfl⟩; rw [Int.floor_intCast]

/-- C7, counterexample: for the box (0, 0, 1, 1) the tracker's centroid is
(0, 0) while the exact geometric midpoint of the diagonal corners is
(1/2, 1/2). -/
theorem c7_counterexample :
    centroidOf (0, 0, 1, 1) = (0, 0) ∧
    midpoint_from_points (0, 0) (1, 1) = (1/2, 1/2) ∧
    ((centroidOf (0, 0, 1, 1)).1 : ℚ) ≠ (midpoint_from_points (0, 0) (1, 1)).1 := by
  refine ⟨?_, ?_, ?_⟩ <;> with_unfolding_all decide

/-- C7, amended: the centroid the tracker computes for a box is the geometric
midpoint of its diagonal corners truncated toward zero in each coordinate
(an effect of storing it in an `int`-dtype array): it differs from the exact
midpoint by less than 1 per coordinate and equals it exactly if and only if
the midpoint coordinate is an integer. -/
theorem c7_truncated_midpoint (x1 y1 x2 y2 : ℚ) :
    |((centroidOf (x1, y1, x2, y2)).1 : ℚ) - (x1 + x2) / 2| < 1 ∧
    |((centroidOf (x1, y1, x2, y2)).2 : ℚ) - (y1 + y2) / 2| < 1 ∧
    (((centroidOf (x1, y1, x2, y2)).1 : ℚ) = (x1 + x2) / 2 ↔
      ∃ n : ℤ, (x1 + x2) / 2 = (n : ℚ)) ∧
    (((centroidOf (x1, y1, x2, y2)).2 : ℚ) = (y1 + y2) / 2 ↔
      ∃ n : ℤ, (y1 + y2) / 2 = (n : ℚ)) := by
  have h1 := intTrunc_close ((x1 + x2) / 2)
  have h2 := intTrunc_close ((y1 + y2) / 2)
  exact ⟨h1.1, h2.1, h1.2, h2.2⟩

/-! ### Association-list lemmas -/

section ALLemmas

variable {α : Type}

theorem alGet_nil (k : ℕ) : alGet ([] : List (ℕ × α)) k = none := rfl

theorem alGet_cons (p : ℕ × α) (l : List (ℕ × α)) (k : ℕ) :
    alGet (p :: l) k = if p.1 = k then some p.2 else alGet l k := rfl

theorem alKeys_nil : alKeys ([] : List (ℕ × α)) = [] := rfl

theorem alKeys_cons (p : ℕ × α) (l : List (ℕ × α)) :
    alKeys (p :: l) = p.1 :: alKeys l := rfl

theorem alGet_eq_none_of_not_mem {l : List (ℕ × α)} {k : ℕ}
    (h : k ∉ alKeys l) : alGet l k = none := by
  induction l with
  | nil => rfl
  | cons p l ih =>
      rw [alKeys_cons, List.mem_cons] at h
      push_neg at h
      rw [alGet_cons, if_neg (fun hh => h.1 hh.symm)]
      exact ih h.2

theorem mem_alKeys_of_alGet_some {l : List (ℕ × α)} {k : ℕ} {v : α}
    (h : alGet l k = some v) : k ∈ alKeys l := by
  by_contra hmem
  rw [alGet_eq_none_of_not_mem hmem] at h
  exact Option.noConfusion h

theorem alGet_isSome_of_mem {l : List (ℕ × α)} {k : ℕ}
    (h : k ∈ alKeys l) : ∃ v, alGet l k = some v := by
  induction l with
  | nil => simp [alKeys_nil] at h
  | cons p l ih =>
      rw [alGet_cons]
      by_cases hp : p.1 = k
      · exact ⟨p.2, by rw [if_pos hp]⟩
      · rw [alKeys_cons, List.mem_cons] at h
        rcases h with h | h
        · exact absurd h.symm hp
        · rw [if_neg hp]
          exact ih h

theorem alGet_isSome_iff {l : List (ℕ × α)} {k : ℕ} :
    (alGet l k).isSome ↔ k ∈ alKeys l := by
  constructor
  · intro h
    obtain ⟨v, hv⟩ := Option.isSome_iff_exists.mp h
    exact mem_alKeys_of_alGet_some hv
  · intro h
    obtain ⟨v, hv⟩ := alGet_isSome_of_mem h
    rw [hv]; rfl

theorem alGet_map_set_self {l : List (ℕ × α)} {k : ℕ} (v : α)
    (hmem : k ∈ alKeys l) :
    alGet (l.map (fun p => if p.1 = k then (k, v) else p)) k = some v := by
  induction l with
  | nil => simp [alKeys_nil] at hmem
  | cons p l ih =>
      rw [List.map_cons]
      by_cases hp : p.1 = k
      · rw [if_pos hp, alGet_cons, if_pos rfl]
      · rw [if_neg hp, alGet_cons, if_neg hp]
        rw [alKeys_cons, List.mem_cons] at hmem
        rcases hmem with h | h
        · exact absurd h.symm hp
        · exact ih h

theorem alGet_map_set_ne {l : List (ℕ × α)} {k j : ℕ} (v : α) (h : j ≠ k) :
    alGet (l.map (fun p => if p.1 = k then (k, v) else p)) j = alGet l j := by
  induction l with
  | nil => rfl
  | cons p l ih =>
      rw [List.map_cons]
      by_cases hp : p.1 = k
      · rw [if_pos hp, alGet_cons, alGet_cons, hp,
          if_neg (fun hh => h hh.symm), if_neg (fun hh => h hh.symm)]
        exact ih
      · rw [if_neg hp, alGet_cons, alGet_cons]
        by_cases hj : p.1 = j
        · rw [if_pos hj, if_pos hj]
        · rw [if_neg hj, if_neg hj]
          exact ih

theorem alGet_append_single_ne {l : List (ℕ × α)} {k j : ℕ} (v : α)
    (h : j ≠ k) : alGet (l ++ [(k, v)]) j = alGet l j := by
  induction l with
  | nil =>
      rw [List.nil_append, alGet_cons, if_neg (fun hh => h (Eq.symm hh))]
  | cons p l ih =>
      rw [List.cons_append, alGet_cons, alGet_cons]
      by_cases hj : p.1 = j
      · rw [if_pos hj, if_pos hj]
      · rw [if_neg hj, if_neg hj]
        exact ih

theorem alGet_append_single_self {l : List (ℕ × α)} {k : ℕ} (v : α)
    (h : k ∉ alKeys l) : alGet (l ++ [(k, v)]) k = some v := by
  induction l with
  | nil => rw [List.nil_append, alGet_cons, if_pos rfl]
  | cons p l ih =>
      rw [alKeys_cons, List.mem_cons] at h
      push_neg at h
      rw [List.cons_append, alGet_cons, if_neg (fun hh => h.1 hh.symm)]
      exact ih h.2

theorem alGet_alSet_self (l : List (ℕ × α)) (k : ℕ) (v : α) :
    alGet (alSet l k v) k = some v := by
  unfold alSet
  split
  · next hmem => exact alGet_map_set_self v hmem
  · next hmem => exact alGet_append_single_self v hmem

theorem alGet_alSet_ne (l : List (ℕ × α)) (k : ℕ) (v : α) {j : ℕ}
    (h : j ≠ k) : alGet (alSet l k v) j = alGet l j := by
  unfold alSet
  split
  · exact alGet_map_set_ne v h
  · exact alGet_append_single_ne v h

theorem alGet_filter_self (l : List (ℕ × α)) (k : ℕ) :
    alGet (l.filter (fun p => p.1 ≠ k)) k = none := by
  induction l with
  | nil => rfl
  | cons p l ih =>
      rw [List.filter_cons]
      by_cases hp : p.1 = k
      · rw [if_neg (by simp [hp])]
        exact ih
      · rw [if_pos (by simp [hp]), alGet_cons, if_neg hp]
        exact ih

theorem alGet_filter_ne (l : List (ℕ × α)) (k : ℕ) {j : ℕ} (h : j ≠ k) :
    alGet (l.filter (fun p => p.1 ≠ k)) j = alGet l j := by
  induction l with
  | nil => rfl
  | cons p l ih =>
      rw [List.filter_cons, alGet_cons]
      by_cases hp : p.1 = k
      · rw [if_neg (by simp [hp]), if_neg (hp ▸ fun hh => h hh.symm)]
        exact ih
      · rw [if_pos (by simp [hp]), alGet_cons]
        by_cases hj : p.1 = j
        · rw [if_pos hj, if_pos hj]
        · rw [if_neg hj, if_neg hj]
          exact ih

theorem alGet_alErase_self (l : List (ℕ × α)) (k : ℕ) :
    alGet (alErase l k) k = none := alGet_filter_self l k

theorem alGet_alErase_ne (l : List (ℕ × α)) (k : ℕ) {j : ℕ} (h : j ≠ k) :
    alGet (alErase l k) j = alGet l j := alGet_filter_ne l k h

theorem alKeys_map_set (l : List (ℕ × α)) (k : ℕ) (v : α) :
    alKeys (l.map (fun p => if p.1 = k then (k, v) else p)) = alKeys l := by
  induction l with
  | nil => rfl
  | cons p l ih =>
      rw [List.map_cons, alKeys_cons, alKeys_cons]
      by_cases hp : p.1 = k
      · rw [if_pos hp]
        exact congrArg₂ _ hp.symm ih
      · rw [if_neg hp]
        exact congrArg _ ih

theorem alKeys_alSet_of_mem {l : List (ℕ × α)} {k : ℕ} (v : α)
    (h : k ∈ alKeys l) : alKeys (alSet l k v) = alKeys l := by
  unfold alSet
  rw [if_pos h]
  exact alKeys_map_set l k v

theorem alKeys_alSet_of_not_mem {l : List (ℕ × α)} {k : ℕ} (v : α)
    (h : k ∉ alKeys l) : alKeys (alSet l k v) = alKeys l ++ [k] := by
  unfold alSet
  rw [if_neg h]
  unfold alKeys
  rw [List.map_append]
  rfl

theorem alKeys_alErase (l : List (ℕ × α)) (k : ℕ) :
    alKeys (alErase l k) = (alKeys l).filter (fun x => x ≠ k) := by
  induction l with
  | nil => rfl
  | cons p l ih =>
      show alKeys ((p :: l).filter (fun p => p.1 ≠ k)) = _
      rw [List.filter_cons, alKeys_cons, List.filter_cons]
      by_cases hp : p.1 = k
      · rw [if_neg (by simp [hp]), if_neg (by simp [hp])]
        exact ih
      · rw [if_pos (by simp [hp]), if_pos (by simp [hp]), alKeys_cons]
        exact congrArg _ ih

theorem mem_alKeys_alErase {l : List (ℕ × α)} {k j : ℕ} :
    j ∈ alKeys (alErase l k) ↔ j ∈ alKeys l ∧ j ≠ k := by
  rw [alKeys_alErase, List.mem_filter]
  simp

end ALLemmas

/-! ### Per-id observations and generic fold lemmas -/

namespace CentroidTracker

/-- All per-track map entries at one id, observed together. -/
def obsAt (s : CentroidTracker) (id : ℕ) :
    Option (ℤ × ℤ) × Option (ℚ × ℚ) × Option (ℚ × ℚ) ×
      Option (MovingAverage (ℚ × ℚ)) × Option ℤ × Option Rect × Option ℕ :=
  (alGet s.tracked_centroids id, alGet s.vels id, alGet s.smoothed_vels id,
   alGet s.smoothed_vel_handlers id, alGet s.confidences id,
   alGet s.rects id, alGet s.missing_count id)

/-- Configuration fields; no operation changes them. -/
def cfg (s : CentroidTracker) : ℕ × ℤ × ℚ :=
  (s.smoothed_vel_window, s.max_missing_count, s.max_distance)

theorem cfg_register (s : CentroidTracker) (c : ℤ × ℤ) :
    (s.register c).cfg = s.cfg := rfl

theorem cfg_deregister (s : CentroidTracker) (id : ℕ) :
    (s.deregister id).cfg = s.cfg := rfl

theorem cfg_markMissing (s : CentroidTracker) (id : ℕ) :
    (s.markMissing id).cfg = s.cfg := by
  unfold markMissing
  split <;> rfl

theorem cfg_applyMatch (ids : List ℕ) (iC : List (ℤ × ℤ)) (rs_in : List Rect)
    (s : CentroidTracker) (p : ℕ × ℕ) :
    (applyMatch ids iC rs_in s p).cfg = s.cfg := rfl

theorem next_id_deregister (s : CentroidTracker) (id : ℕ) :
    (s.deregister id).next_id = s.next_id := rfl

theorem next_id_markMissing (s : CentroidTracker) (id : ℕ) :
    (s.markMissing id).next_id = s.next_id := by
  unfold markMissing
  split <;> rfl

theorem next_id_applyMatch (ids : List ℕ) (iC : List (ℤ × ℤ))
    (rs_in : List Rect) (s : CentroidTracker) (p : ℕ × ℕ) :
    (applyMatch ids iC rs_in s p).next_id = s.next_id := rfl

theorem next_id_register (s : CentroidTracker) (c : ℤ × ℤ) :
    (s.register c).next_id = s.next_id + 1 := rfl

theorem obsAt_register_ne {s : CentroidTracker} {id : ℕ} (c : ℤ × ℤ)
    (h : id ≠ s.next_id) : (s.register c).obsAt id = s.obsAt id := by
  unfold obsAt register
  dsimp only
  rw [alGet_alSet_ne _ _ _ h, alGet_alSet_ne _ _ _ h, alGet_alSet_ne _ _ _ h,
    alGet_alSet_ne _ _ _ h, alGet_alSet_ne _ _ _ h, alGet_alSet_ne _ _ _ h,
    alGet_alSet_ne _ _ _ h]

theorem obsAt_deregister_ne {s : CentroidTracker} {id j : ℕ} (h : id ≠ j) :
    (s.deregister j).obsAt id = s.obsAt id := by
  unfold obsAt deregister
  dsimp only
  rw [alGet_alErase_ne _ _ h, alGet_alErase_ne _ _ h, alGet_alErase_ne _ _ h,
    alGet_alErase_ne _ _ h, alGet_alErase_ne _ _ h, alGet_alErase_ne _ _ h,
    alGet_alErase_ne _ _ h]

theorem obsAt_markMissing_ne {s : CentroidTracker} {id j : ℕ} (h : id ≠ j) :
    (s.markMissing j).obsAt id = s.obsAt id := by
  unfold markMissing
  split
  · rw [obsAt_deregister_ne h]
    unfold obsAt
    dsimp only
    rw [alGet_alSet_ne _ _ _ h, alGet_alSet_ne _ _ _ h]
  · unfold obsAt
    dsimp only
    rw [alGet_alSet_ne _ _ _ h, alGet_alSet_ne _ _ _ h]

theorem obsAt_applyMatch_ne {ids : List ℕ} {iC : List (ℤ × ℤ)}
    {rs_in : List Rect} {s : CentroidTracker} {p : ℕ × ℕ} {id : ℕ}
    (h : id ≠ ids.getD p.1 0) :
    (applyMatch ids iC rs_in s p).obsAt id = s.obsAt id := by
  unfold obsAt applyMatch
  dsimp only
  rw [alGet_alSet_ne _ _ _ h, alGet_alSet_ne _ _ _ h, alGet_alSet_ne _ _ _ h,
    alGet_alSet_ne _ _ _ h, alGet_alSet_ne _ _ _ h, alGet_alSet_ne _ _ _ h,
    alGet_alSet_ne _ _ _ h]

/-- Generic fold preservation of an observation. -/
theorem foldl_obs {ι β : Type} (step : CentroidTracker → ι → CentroidTracker)
    (G : CentroidTracker → β) (L : List ι) (s : CentroidTracker)
    (h : ∀ t x, x ∈ L → G (step t x) = G t) :
    G (L.foldl step s) = G s := by
  induction L generalizing s with
  | nil => rfl
  | cons x L ih =>
      rw [List.foldl_cons, ih _ (fun t y hy => h t y (List.mem_cons_of_mem x hy))]
      exact h s x (List.mem_cons_self x L)

/-- Generic fold preservation of an observation under an invariant. -/
theorem foldl_obs_inv {ι β : Type}
    (step : CentroidTracker → ι → CentroidTracker)
    (G : CentroidTracker → β) (P : CentroidTracker → Prop) (L : List ι)
    (s : CentroidTracker) (h0 : P s)
    (hP : ∀ t x, x ∈ L → P t → P (step t x))
    (hG : ∀ t x, x ∈ L → P t → G (step t x) = G t) :
    G (L.foldl step s) = G s ∧ P (L.foldl step s) := by
  induction L generalizing s with
  | nil => exact ⟨rfl, h0⟩
  | cons x L ih =>
      rw [List.foldl_cons]
      have hx := List.mem_cons_self x L
      obtain ⟨hg, hp⟩ := ih (step s x) (hP s x hx h0)
        (fun t y hy => hP t y (List.mem_cons_of_mem x hy))
        (fun t y hy => hG t y (List.mem_cons_of_mem x hy))
      exact ⟨hg.trans (hG s x hx h0), hp⟩

/-- The three branches of `update`, as rewriting lemmas. -/
theorem update_nil (s : CentroidTracker) :
    s.update [] = (alKeys s.missing_count).foldl markMissing s := by
  unfold update
  rw [if_pos rfl]

theorem update_bootstrap {s : CentroidTracker} {rs_in : List Rect}
    (h1 : rs_in ≠ []) (h2 : s.tracked_centroids = []) :
    s.update rs_in = (rs_in.map centroidOf).foldl register s := by
  unfold update
  rw [if_neg h1, if_pos h2]

theorem update_match_rows {s : CentroidTracker} {rs_in : List Rect}
    (h1 : rs_in ≠ []) (h2 : s.tracked_centroids ≠ [])
    (h3 : rs_in.length ≤ s.tracked_centroids.length) :
    s.update rs_in =
      (unused_rows (s.pairsOf rs_in) s.tracked_centroids.length).foldl
        (fun t r => t.markMissing ((alKeys s.tracked_centroids).getD r 0))
        (s.matchFold rs_in) := by
  unfold update
  rw [if_neg h1, if_neg h2, if_pos h3]

theorem update_match_cols {s : CentroidTracker} {rs_in : List Rect}
    (h1 : rs_in ≠ []) (h2 : s.tracked_centroids ≠ [])
    (h3 : ¬ rs_in.length ≤ s.tracked_centroids.length) :
    s.update rs_in =
      (CentroidTracker.unused_cols (s.pairsOf rs_in) rs_in.length).foldl
        (fun t c => t.register ((rs_in.map centroidOf).getD c (0, 0)))
        (s.matchFold rs_in) := by
  unfold update
  rw [if_neg h1, if_neg h2, if_neg h3]

end CentroidTracker

/-! ### Matching computation lemmas -/

theorem insertByKey_mem (key : ℕ → ℤ) (i : ℕ) (l : List ℕ) (x : ℕ) :
    x ∈ insertByKey key i l ↔ x = i ∨ x ∈ l := by
  induction l with
  | nil => simp [insertByKey]
  | cons j js ih =>
      unfold insertByKey
      split
      · simp
      · simp only [List.mem_cons, ih]
        tauto

theorem sortByKey_mem (key : ℕ → ℤ) (l : List ℕ) (x : ℕ) :
    x ∈ sortByKey key l ↔ x ∈ l := by
  induction l with
  | nil => simp [sortByKey]
  | cons i is ih =>
      unfold sortByKey
      rw [insertByKey_mem, ih, List.mem_cons]

theorem argminFrom_lt {n : ℕ} :
    ∀ (xs : List ℤ) (bi : ℕ) (bv : ℤ) (i : ℕ), bi < n → i + xs.length ≤ n →
      argminFrom bi bv i xs < n := by
  intro xs
  induction xs with
  | nil => intro bi bv i hbi _; exact hbi
  | cons x t ih =>
      intro bi bv i hbi hlen
      unfold argminFrom
      simp only [List.length_cons] at hlen
      split
      · exact ih i x (i + 1) (by omega) (by omega)
      · exact ih bi bv (i + 1) hbi (by omega)

theorem argminIdx_lt {l : List ℤ} (h : l ≠ []) : argminIdx l < l.length := by
  rcases l with _ | ⟨x, xs⟩
  · exact absurd rfl h
  · exact argminFrom_lt xs 0 x 1 (Nat.succ_pos _) (by simp [Nat.add_comm])

theorem selectPairs_subset (tooFar : ℕ → ℕ → Bool) :
    ∀ (L : List (ℕ × ℕ)) (uR uC : List ℕ) (p : ℕ × ℕ),
      p ∈ selectPairs tooFar L uR uC → p ∈ L := by
  intro L
  induction L with
  | nil => intro uR uC p hp; exact absurd hp (List.not_mem_nil p)
  | cons q rest ih =>
      intro uR uC p hp
      rcases q with ⟨r, c⟩
      unfold selectPairs at hp
      split at hp
      · exact List.mem_cons_of_mem _ (ih _ _ _ hp)
      · split at hp
        · exact List.mem_cons_of_mem _ (ih _ _ _ hp)
        · rcases List.mem_cons.mp hp with h | h
          · exact h ▸ List.mem_cons_self _ _
          · exact List.mem_cons_of_mem _ (ih _ _ _ h)

theorem selectPairs_fst_spec (tooFar : ℕ → ℕ → Bool) :
    ∀ (L : List (ℕ × ℕ)) (uR uC : List ℕ),
      ((selectPairs tooFar L uR uC).map Prod.fst).Nodup ∧
      ∀ r ∈ (selectPairs tooFar L uR uC).map Prod.fst, r ∉ uR := by
  intro L
  induction L with
  | nil => intro uR uC; exact ⟨List.nodup_nil, by simp [selectPairs]⟩
  | cons q rest ih =>
      intro uR uC
      rcases q with ⟨r, c⟩
      unfold selectPairs
      split
      · exact ih uR uC
      · split
        · exact ih uR uC
        · obtain ⟨hnd, havoid⟩ := ih (r :: uR) (c :: uC)
          refine ⟨?_, ?_⟩
          · rw [List.map_cons, List.nodup_cons]
            exact ⟨fun hmem => (havoid r hmem) (List.mem_cons_self r uR), hnd⟩
          · intro x hx hxu
            rw [List.map_cons, List.mem_cons] at hx
            rcases hx with hx | hx
            · next hskip _ =>
                have hxr : x = r := hx
                exact hskip (Or.inl (hxr ▸ hxu))
            · exact (havoid x hx) (List.mem_cons_of_mem r hxu)

theorem selectPairs_snd_spec (tooFar : ℕ → ℕ → Bool) :
    ∀ (L : List (ℕ × ℕ)) (uR uC : List ℕ),
      ((selectPairs tooFar L uR uC).map Prod.snd).Nodup ∧
      ∀ c ∈ (selectPairs tooFar L uR uC).map Prod.snd, c ∉ uC := by
  intro L
  induction L with
  | nil => intro uR uC; exact ⟨List.nodup_nil, by simp [selectPairs]⟩
  | cons q rest ih =>
      intro uR uC
      rcases q with ⟨r, c⟩
      unfold selectPairs
      split
      · exact ih uR uC
      · split
        · exact ih uR uC
        · obtain ⟨hnd, havoid⟩ := ih (r :: uR) (c :: uC)
          refine ⟨?_, ?_⟩
          · rw [List.map_cons, List.nodup_cons]
            exact ⟨fun hmem => (havoid c hmem) (List.mem_cons_self c uC), hnd⟩
          · intro x hx hxu
            rw [List.map_cons, List.mem_cons] at hx
            rcases hx with hx | hx
            · next hskip _ =>
                have hxc : x = c := hx
                exact hskip (Or.inr (hxc ▸ hxu))
            · exact (havoid x hx) (List.mem_cons_of_mem c hxu)

namespace CentroidTracker

/-- Every accepted pair has a row index below the number of tracked centroids
and a column index below the number of detections. -/
theorem pairsOf_lt {s : CentroidTracker} {rs_in : List Rect}
    (hR : rs_in ≠ []) {p : ℕ × ℕ} (hp : p ∈ s.pairsOf rs_in) :
    p.1 < s.tracked_centroids.length ∧ p.2 < rs_in.length := by
  unfold pairsOf matchPairsOf at hp
  have hzip := selectPairs_subset _ _ _ _ _ hp
  have h1 := (List.of_mem_zip hzip).1
  have h2 := (List.of_mem_zip hzip).2
  rw [sortByKey_mem, List.mem_range] at h1
  rw [List.length_map] at h1
  refine ⟨h1, ?_⟩
  rw [List.mem_map] at h2
  obtain ⟨r, hr, hc⟩ := h2
  rw [sortByKey_mem, List.mem_range, List.length_map] at hr
  have hd : (CentroidTracker.dMat (s.tracked_centroids.map Prod.snd)
      (rs_in.map centroidOf)).getD r [] =
      (rs_in.map centroidOf).map
        (fun c => squaredDist ((s.tracked_centroids.map Prod.snd).getD r (0, 0)) c) := by
    unfold dMat
    rw [List.getD_eq_getElem _ _ (by rw [List.length_map, List.length_map]; exact hr)]
    rw [List.getElem_map]
    congr 1
    rw [List.getD_eq_getElem _ _ (by rw [List.length_map]; exact hr)]
  have hlen : ((CentroidTracker.dMat (s.tracked_centroids.map Prod.snd)
      (rs_in.map centroidOf)).getD r []).length = rs_in.length := by
    rw [hd, List.length_map, List.length_map]
  have hne : (CentroidTracker.dMat (s.tracked_centroids.map Prod.snd)
      (rs_in.map centroidOf)).getD r [] ≠ [] := by
    intro hh
    rw [hh] at hlen
    exact hR (List.eq_nil_of_length_eq_zero hlen.symm)
  have := argminIdx_lt hne
  rw [hlen] at this
  exact hc ▸ this

/-- The accepted rows are distinct, hence the matched ids are distinct. -/
theorem pairsOf_fst_nodup (s : CentroidTracker) (rs_in : List Rect) :
    ((s.pairsOf rs_in).map Prod.fst).Nodup :=
  (selectPairs_fst_spec _ _ [] []).1

theorem pairsOf_snd_nodup (s : CentroidTracker) (rs_in : List Rect) :
    ((s.pairsOf rs_in).map Prod.snd).Nodup :=
  (selectPairs_snd_spec _ _ [] []).1

end CentroidTracker

/-! ### Preservation of the lock-step invariant -/

namespace CentroidTracker

theorem obsAt_components {s t : CentroidTracker} {id : ℕ}
    (h : s.obsAt id = t.obsAt id) :
    alGet s.tracked_centroids id = alGet t.tracked_centroids id ∧
    alGet s.vels id = alGet t.vels id ∧
    alGet s.smoothed_vels id = alGet t.smoothed_vels id ∧
    alGet s.smoothed_vel_handlers id = alGet t.smoothed_vel_handlers id ∧
    alGet s.confidences id = alGet t.confidences id ∧
    alGet s.rects id = alGet t.rects id ∧
    alGet s.missing_count id = alGet t.missing_count id :=
  ⟨congrArg (fun x => x.1) h, congrArg (fun x => x.2.1) h,
   congrArg (fun x => x.2.2.1) h, congrArg (fun x => x.2.2.2.1) h,
   congrArg (fun x => x.2.2.2.2.1) h, congrArg (fun x => x.2.2.2.2.2.1) h,
   congrArg (fun x => x.2.2.2.2.2.2) h⟩

theorem obsAt_eq_tuple {s : CentroidTracker} {id : ℕ}
    {a : Option (ℤ × ℤ)} {b c : Option (ℚ × ℚ)}
    {d : Option (MovingAverage (ℚ × ℚ))} {e : Option ℤ} {f : Option Rect}
    {g : Option ℕ} (h : s.obsAt id = (a, b, c, d, e, f, g)) :
    alGet s.tracked_centroids id = a ∧ alGet s.vels id = b ∧
    alGet s.smoothed_vels id = c ∧ alGet s.smoothed_vel_handlers id = d ∧
    alGet s.confidences id = e ∧ alGet s.rects id = f ∧
    alGet s.missing_count id = g :=
  ⟨congrArg (fun x => x.1) h, congrArg (fun x => x.2.1) h,
   congrArg (fun x => x.2.2.1) h, congrArg (fun x => x.2.2.2.1) h,
   congrArg (fun x => x.2.2.2.2.1) h, congrArg (fun x => x.2.2.2.2.2.1) h,
   congrArg (fun x => x.2.2.2.2.2.2) h⟩

theorem mem_tracked_of_obsAt {s t : CentroidTracker} {id : ℕ}
    (h : s.obsAt id = t.obsAt id) :
    (id ∈ alKeys s.tracked_centroids ↔ id ∈ alKeys t.tracked_centroids) := by
  rw [← alGet_isSome_iff, ← alGet_isSome_iff, (obsAt_components h).1]

theorem mem_getD_self {K : List ℕ} {r : ℕ} (h : r < K.length) :
    K.getD r 0 ∈ K := by
  rw [List.getD_eq_getElem _ _ h]
  exact List.getElem_mem h

theorem aligned_register {s : CentroidTracker} (hA : s.Aligned) (c : ℤ × ℤ) :
    (s.register c).Aligned := by
  obtain ⟨h1, h2, h3, h4, h5, h6, hnd, hlt⟩ := hA
  have hfresh : s.next_id ∉ alKeys s.tracked_centroids :=
    fun h => lt_irrefl _ (hlt _ h)
  unfold register Aligned
  dsimp only
  rw [alKeys_alSet_of_not_mem _ hfresh,
    alKeys_alSet_of_not_mem _ (by rw [h1]; exact hfresh),
    alKeys_alSet_of_not_mem _ (by rw [h2]; exact hfresh),
    alKeys_alSet_of_not_mem _ (by rw [h3]; exact hfresh),
    alKeys_alSet_of_not_mem _ (by rw [h4]; exact hfresh),
    alKeys_alSet_of_not_mem _ (by rw [h5]; exact hfresh),
    alKeys_alSet_of_not_mem _ (by rw [h6]; exact hfresh)]
  refine ⟨by rw [h1], by rw [h2], by rw [h3], by rw [h4], by rw [h5],
    by rw [h6], ?_, ?_⟩
  · rw [List.nodup_append]
    refine ⟨hnd, List.nodup_singleton _, ?_⟩
    intro a ha hb
    rw [List.mem_singleton] at hb
    subst hb
    exact hfresh ha
  · intro k hk
    rw [List.mem_append, List.mem_singleton] at hk
    rcases hk with hk | hk
    · exact Nat.lt_succ_of_lt (hlt k hk)
    · subst hk; exact Nat.lt_succ_self _

theorem aligned_deregister {s : CentroidTracker} (hA : s.Aligned) (id : ℕ) :
    (s.deregister id).Aligned := by
  obtain ⟨h1, h2, h3, h4, h5, h6, hnd, hlt⟩ := hA
  unfold deregister Aligned
  dsimp only
  rw [alKeys_alErase, alKeys_alErase, alKeys_alErase, alKeys_alErase,
    alKeys_alErase, alKeys_alErase, alKeys_alErase]
  refine ⟨by rw [h1], by rw [h2], by rw [h3], by rw [h4], by rw [h5],
    by rw [h6], List.Nodup.filter _ hnd, ?_⟩
  intro k hk
  exact hlt k (List.mem_of_mem_filter hk)

theorem aligned_markMissing {s : CentroidTracker} (hA : s.Aligned) {id : ℕ}
    (hid : id ∈ alKeys s.tracked_centroids) : (s.markMissing id).Aligned := by
  have hs1 : Aligned ({ s with
      missing_count := alSet s.missing_count id
        ((alGet s.missing_count id).getD 0 + 1)
      confidences := alSet s.confidences id
        ((alGet s.confidences id).getD 0 - 1) } : CentroidTracker) := by
    obtain ⟨h1, h2, h3, h4, h5, h6, hnd, hlt⟩ := hA
    exact ⟨by dsimp only; rw [alKeys_alSet_of_mem _ (by rw [h1]; exact hid), h1],
      h2, h3, h4,
      by dsimp only; rw [alKeys_alSet_of_mem _ (by rw [h5]; exact hid), h5],
      h6, hnd, hlt⟩
  unfold markMissing
  split
  · exact aligned_deregister hs1 id
  · exact hs1

theorem aligned_applyMatch {ids : List ℕ} {iC : List (ℤ × ℤ)}
    {rs_in : List Rect} {s : CentroidTracker} {p : ℕ × ℕ} (hA : s.Aligned)
    (hid : ids.getD p.1 0 ∈ alKeys s.tracked_centroids) :
    (applyMatch ids iC rs_in s p).Aligned := by
  obtain ⟨h1, h2, h3, h4, h5, h6, hnd, hlt⟩ := hA
  unfold applyMatch Aligned
  dsimp only
  rw [alKeys_alSet_of_mem _ hid,
    alKeys_alSet_of_mem _ (by rw [h1]; exact hid),
    alKeys_alSet_of_mem _ (by rw [h2]; exact hid),
    alKeys_alSet_of_mem _ (by rw [h3]; exact hid),
    alKeys_alSet_of_mem _ (by rw [h4]; exact hid),
    alKeys_alSet_of_mem _ (by rw [h5]; exact hid),
    alKeys_alSet_of_mem _ (by rw [h6]; exact hid)]
  exact ⟨h1, h2, h3, h4, h5, h6, hnd, hlt⟩

theorem keys_applyMatch {ids : List ℕ} {iC : List (ℤ × ℤ)}
    {rs_in : List Rect} {s : CentroidTracker} {p : ℕ × ℕ}
    (hid : ids.getD p.1 0 ∈ alKeys s.tracked_centroids) :
    alKeys (applyMatch ids iC rs_in s p).tracked_centroids
      = alKeys s.tracked_centroids := by
  unfold applyMatch
  dsimp only
  exact alKeys_alSet_of_mem _ hid

/-- Folding `applyMatch` over pairs whose row ids are keys preserves the
invariant, the tracked key list and `next_id`. -/
theorem aligned_foldl_applyMatch {ids : List ℕ} {iC : List (ℤ × ℤ)}
    {rs_in : List Rect} :
    ∀ (P : List (ℕ × ℕ)) (s : CentroidTracker), s.Aligned →
      (∀ p ∈ P, ids.getD p.1 0 ∈ alKeys s.tracked_centroids) →
      (P.foldl (applyMatch ids iC rs_in) s).Aligned ∧
      alKeys (P.foldl (applyMatch ids iC rs_in) s).tracked_centroids
        = alKeys s.tracked_centroids ∧
      (P.foldl (applyMatch ids iC rs_in) s).next_id = s.next_id := by
  intro P
  induction P with
  | nil => intro s hA _; exact ⟨hA, rfl, rfl⟩
  | cons p P ih =>
      intro s hA hmem
      rw [List.foldl_cons]
      have hp := hmem p (List.mem_cons_self p P)
      have hA1 := @aligned_applyMatch ids iC rs_in s p hA hp
      have hkeys := @keys_applyMatch ids iC rs_in s p hp
      obtain ⟨ha, hk, hn⟩ := ih (applyMatch ids iC rs_in s p) hA1
        (fun q hq => by rw [hkeys]; exact hmem q (List.mem_cons_of_mem p hq))
      exact ⟨ha, hk.trans hkeys, hn.trans (next_id_applyMatch _ _ _ _ _)⟩

theorem matchFold_aligned {s : CentroidTracker} {rs_in : List Rect}
    (hA : s.Aligned) (hR : rs_in ≠ []) :
    (s.matchFold rs_in).Aligned ∧
    alKeys (s.matchFold rs_in).tracked_centroids = alKeys s.tracked_centroids ∧
    (s.matchFold rs_in).next_id = s.next_id := by
  unfold matchFold
  apply aligned_foldl_applyMatch _ _ hA
  intro p hp
  have hlt := (pairsOf_lt hR hp).1
  apply mem_getD_self
  rw [alKeys, List.length_map]
  exact hlt

/-- Folding `markMissing` over a list of distinct existing ids preserves the
invariant. -/
theorem aligned_foldl_markMissing {ι : Type} (f : ι → ℕ) :
    ∀ (L : List ι) (s : CentroidTracker), s.Aligned → (L.map f).Nodup →
      (∀ j ∈ L, f j ∈ alKeys s.tracked_centroids) →
      (L.foldl (fun t j => t.markMissing (f j)) s).Aligned := by
  intro L
  induction L with
  | nil => intro s hA _ _; exact hA
  | cons x L ih =>
      intro s hA hnd hmem
      rw [List.foldl_cons]
      rw [List.map_cons, List.nodup_cons] at hnd
      apply ih _ (aligned_markMissing hA (hmem x (List.mem_cons_self x L))) hnd.2
      intro j hj
      have hne : f j ≠ f x := by
        intro hh
        exact hnd.1 (hh ▸ List.mem_map_of_mem f hj)
      rw [mem_tracked_of_obsAt (obsAt_markMissing_ne hne)]
      exact hmem j (List.mem_cons_of_mem x hj)

/-- Folding `register` preserves the invariant. -/
theorem aligned_foldl_register {ι : Type} (g : ι → ℤ × ℤ) :
    ∀ (L : List ι) (s : CentroidTracker), s.Aligned →
      (L.foldl (fun t c => t.register (g c)) s).Aligned := by
  intro L
  induction L with
  | nil => intro s hA; exact hA
  | cons x L ih =>
      intro s hA
      rw [List.foldl_cons]
      exact ih _ (aligned_register hA (g x))

/-- Every update preserves the lock-step invariant. -/
theorem aligned_update {s : CentroidTracker} (hA : s.Aligned)
    (rs_in : List Rect) : (s.update rs_in).Aligned := by
  by_cases h1 : rs_in = []
  · subst h1
    rw [update_nil]
    have := aligned_foldl_markMissing (fun j => j) (alKeys s.missing_count) s hA
      (by
        have : List.map (fun j => j) (alKeys s.missing_count)
            = alKeys s.missing_count := List.map_id _
        rw [this, hA.1]
        exact hA.2.2.2.2.2.2.1)
      (fun j hj => by rw [← hA.1]; exact hj)
    exact this
  · by_cases h2 : s.tracked_centroids = []
    · rw [update_bootstrap h1 h2]
      exact aligned_foldl_register (fun c => c) _ s hA
    · by_cases h3 : rs_in.length ≤ s.tracked_centroids.length
      · rw [update_match_rows h1 h2 h3]
        obtain ⟨hAm, hkeys, _⟩ := matchFold_aligned hA h1
        apply aligned_foldl_markMissing
          (fun r => (alKeys s.tracked_centroids).getD r 0) _ _ hAm
        · apply List.Nodup.map_on
          · intro x hx y hy hxy
            unfold unused_rows at hx hy
            have hxr := List.mem_range.mp (List.mem_of_mem_filter hx)
            have hyr := List.mem_range.mp (List.mem_of_mem_filter hy)
            have hxl : x < (alKeys s.tracked_centroids).length := by
              rw [alKeys, List.length_map]; exact hxr
            have hyl : y < (alKeys s.tracked_centroids).length := by
              rw [alKeys, List.length_map]; exact hyr
            rw [List.getD_eq_getElem _ _ hxl, List.getD_eq_getElem _ _ hyl] at hxy
            exact (List.Nodup.getElem_inj_iff hA.2.2.2.2.2.2.1).mp hxy
          · exact List.Nodup.filter _ (List.nodup_range _)
        · intro r hr
          rw [hkeys]
          apply mem_getD_self
          rw [alKeys, List.length_map]
          exact List.mem_range.mp (List.mem_of_mem_filter hr)
      · rw [update_match_cols h1 h2 h3]
        exact aligned_foldl_register _ _ _ (matchFold_aligned hA h1).1

end CentroidTracker

/-! ### Claim C8 -/

namespace CentroidTracker

/-- The lock-step reading of the invariant: an id is a key of every per-track
map or of none. -/
def LockStep (s : CentroidTracker) : Prop :=
  ∀ k : ℕ,
    (k ∈ alKeys s.missing_count ↔ k ∈ alKeys s.tracked_centroids) ∧
    (k ∈ alKeys s.vels ↔ k ∈ alKeys s.tracked_centroids) ∧
    (k ∈ alKeys s.smoothed_vels ↔ k ∈ alKeys s.tracked_centroids) ∧
    (k ∈ alKeys s.smoothed_vel_handlers ↔ k ∈ alKeys s.tracked_centroids) ∧
    (k ∈ alKeys s.confidences ↔ k ∈ alKeys s.tracked_centroids) ∧
    (k ∈ alKeys s.rects ↔ k ∈ alKeys s.tracked_centroids)

theorem Aligned.lockStep {s : CentroidTracker} (hA : s.Aligned) :
    s.LockStep := by
  intro k
  rw [hA.1, hA.2.1, hA.2.2.1, hA.2.2.2.1, hA.2.2.2.2.1, hA.2.2.2.2.2.1]
  exact ⟨Iff.rfl, Iff.rfl, Iff.rfl, Iff.rfl, Iff.rfl, Iff.rfl⟩

end CentroidTracker

/-- C8: starting from a tracker satisfying the lock-step alignment invariant,
every operation — `register`, `deregister`, and `update` on any input —
returns a state that again satisfies it, and in particular in every resulting
state a track id is a key of all per-track maps (`tracked_centroids`,
`missing_count`, `vels`, `smoothed_vels`, `smoothed_vel_handlers`,
`confidences`, `rects`) or of none of them. -/
theorem c8_lockstep_invariant (s : CentroidTracker) (hA : s.Aligned)
    (c : ℤ × ℤ) (id : ℕ) (rs_in : List Rect) :
    ((s.register c).Aligned ∧ (s.register c).LockStep) ∧
    ((s.deregister id).Aligned ∧ (s.deregister id).LockStep) ∧
    ((s.update rs_in).Aligned ∧ (s.update rs_in).LockStep) :=
  ⟨⟨CentroidTracker.aligned_register hA c,
    (CentroidTracker.aligned_register hA c).lockStep⟩,
   ⟨CentroidTracker.aligned_deregister hA id,
    (CentroidTracker.aligned_deregister hA id).lockStep⟩,
   ⟨CentroidTracker.aligned_update hA rs_in,
    (CentroidTracker.aligned_update hA rs_in).lockStep⟩⟩

theorem c8_lockstep_invariant_witness :
    (CentroidTracker.init 3 5 2).Aligned ∧
    ((((CentroidTracker.init 3 5 2).register (1, 2)).Aligned ∧
      ((CentroidTracker.init 3 5 2).register (1, 2)).LockStep) ∧
     (((CentroidTracker.init 3 5 2).deregister 0).Aligned ∧
      ((CentroidTracker.init 3 5 2).deregister 0).LockStep) ∧
     (((CentroidTracker.init 3 5 2).update [(0, 0, 2, 2)]).Aligned ∧
      ((CentroidTracker.init 3 5 2).update [(0, 0, 2, 2)]).LockStep)) :=
  ⟨by decide, c8_lockstep_invariant (CentroidTracker.init 3 5 2) (by decide)
    (1, 2) 0 [(0, 0, 2, 2)]⟩

/-! ### Per-id effect of the missing-marking loop -/

namespace CentroidTracker

theorem obsAt_markMissing_self_evict {s : CentroidTracker} {id : ℕ} {m : ℕ}
    (hm : alGet s.missing_count id = some m)
    (h : ((m + 1 : ℕ) : ℤ) > s.max_missing_count) :
    (s.markMissing id).obsAt id = (none, none, none, none, none, none, none) := by
  unfold markMissing
  rw [hm]
  simp only [Option.getD_some]
  rw [if_pos h]
  unfold obsAt deregister
  dsimp only
  rw [alGet_alErase_self, alGet_alErase_self, alGet_alErase_self,
    alGet_alErase_self, alGet_alErase_self, alGet_alErase_self,
    alGet_alErase_self]

theorem obsAt_markMissing_self_keep {s : CentroidTracker} {id : ℕ} {m : ℕ}
    (hm : alGet s.missing_count id = some m)
    (h : ¬ ((m + 1 : ℕ) : ℤ) > s.max_missing_count) :
    (s.markMissing id).obsAt id =
      (alGet s.tracked_centroids id, alGet s.vels id,
       alGet s.smoothed_vels id, alGet s.smoothed_vel_handlers id,
       some ((alGet s.confidences id).getD 0 - 1), alGet s.rects id,
       some (m + 1)) := by
  unfold markMissing
  rw [hm]
  simp only [Option.getD_some]
  rw [if_neg h]
  unfold obsAt
  dsimp only
  rw [alGet_alSet_self, alGet_alSet_self]

/-- A member hit by an injective-image list splits it with the member absent
from both sides. -/
theorem exists_once_of_nodup_map {ι : Type} {f : ι → ℕ} {L : List ι} {id : ℕ}
    (hnd : (L.map f).Nodup) {x : ι} (hx : x ∈ L) (hfx : f x = id) :
    ∃ L1 y L2, L = L1 ++ y :: L2 ∧ f y = id ∧
      (∀ j ∈ L1, f j ≠ id) ∧ (∀ j ∈ L2, f j ≠ id) := by
  obtain ⟨L1, L2, rfl⟩ := List.append_of_mem hx
  rw [List.map_append, List.map_cons] at hnd
  rw [List.nodup_append] at hnd
  obtain ⟨hnd1, hnd2, hdisj⟩ := hnd
  rw [List.nodup_cons] at hnd2
  refine ⟨L1, x, L2, rfl, hfx, ?_, ?_⟩
  · intro j hj hfj
    exact hdisj (List.mem_map_of_mem f hj)
      (by rw [hfj, ← hfx]; exact List.mem_cons_self _ _)
  · intro j hj hfj
    exact hnd2.1 (by rw [hfx, ← hfj]; exact List.mem_map_of_mem f hj)

theorem obsAt_foldl_markMissing_once {ι : Type} (f : ι → ℕ) {id : ℕ} {m : ℕ}
    (L1 L2 : List ι) (x : ι) (s : CentroidTracker)
    (hx : f x = id) (h1 : ∀ j ∈ L1, f j ≠ id) (h2 : ∀ j ∈ L2, f j ≠ id)
    (hm : alGet s.missing_count id = some m) :
    ((((m + 1 : ℕ) : ℤ) > s.max_missing_count →
      ((L1 ++ x :: L2).foldl (fun t j => t.markMissing (f j)) s).obsAt id
        = (none, none, none, none, none, none, none)) ∧
    (¬ (((m + 1 : ℕ) : ℤ) > s.max_missing_count) →
      ((L1 ++ x :: L2).foldl (fun t j => t.markMissing (f j)) s).obsAt id
        = (alGet s.tracked_centroids id, alGet s.vels id,
           alGet s.smoothed_vels id, alGet s.smoothed_vel_handlers id,
           some ((alGet s.confidences id).getD 0 - 1), alGet s.rects id,
           some (m + 1)))) := by
  rw [List.foldl_append, List.foldl_cons]
  have hobs1 : (L1.foldl (fun t j => t.markMissing (f j)) s).obsAt id
      = s.obsAt id :=
    foldl_obs _ (fun t => t.obsAt id) L1 s
      (fun t j hj => obsAt_markMissing_ne (fun hh => h1 j hj hh.symm))
  have hcfg1 : (L1.foldl (fun t j => t.markMissing (f j)) s).cfg = s.cfg :=
    foldl_obs _ cfg L1 s (fun t j _ => cfg_markMissing t (f j))
  obtain ⟨e1, e2, e3, e4, e5, e6, e7⟩ := obsAt_components hobs1
  have hmax : (L1.foldl (fun t j => t.markMissing (f j)) s).max_missing_count
      = s.max_missing_count := congrArg (fun q => q.2.1) hcfg1
  have hm1 : alGet (L1.foldl (fun t j => t.markMissing (f j)) s).missing_count
      id = some m := by rw [e7, hm]
  have hpres : ∀ (t : CentroidTracker),
      (L2.foldl (fun t j => t.markMissing (f j)) t).obsAt id = t.obsAt id :=
    fun t => foldl_obs _ (fun u => u.obsAt id) L2 t
      (fun u j hj => obsAt_markMissing_ne (fun hh => h2 j hj hh.symm))
  rw [hx]
  constructor
  · intro hgt
    rw [hpres, obsAt_markMissing_self_evict hm1 (by rw [hmax]; exact hgt)]
  · intro hle
    rw [hpres, obsAt_markMissing_self_keep hm1 (by rw [hmax]; exact hle)]
    rw [e1, e2, e3, e4, e5, e6]

end CentroidTracker

namespace CentroidTracker

theorem matchPairs_eq {s : CentroidTracker} {rs_in : List Rect}
    (h1 : rs_in ≠ []) (h2 : s.tracked_centroids ≠ []) :
    s.matchPairs rs_in = s.pairsOf rs_in := by
  unfold matchPairs
  rw [if_neg h1, if_neg h2]

theorem cfg_update (s : CentroidTracker) (rs_in : List Rect) :
    (s.update rs_in).cfg = s.cfg := by
  have hcfgM : ∀ (t : CentroidTracker), (t.matchFold rs_in).cfg = t.cfg :=
    fun t => foldl_obs _ cfg _ t (fun u p _ => cfg_applyMatch _ _ _ u p)
  by_cases h1 : rs_in = []
  · subst h1
    rw [update_nil]
    exact foldl_obs _ cfg _ s (fun t j _ => cfg_markMissing t j)
  · by_cases h2 : s.tracked_centroids = []
    · rw [update_bootstrap h1 h2]
      exact foldl_obs _ cfg _ s (fun t c _ => cfg_register t c)
    · by_cases h3 : rs_in.length ≤ s.tracked_centroids.length
      · rw [update_match_rows h1 h2 h3]
        exact (foldl_obs _ cfg _ _ (fun t r _ => cfg_markMissing t _)).trans
          (hcfgM s)
      · rw [update_match_cols h1 h2 h3]
        exact (foldl_obs _ cfg _ _ (fun t c _ => cfg_register t _)).trans
          (hcfgM s)

theorem tracked_ne_nil_of_mem {s : CentroidTracker} {id : ℕ}
    (hid : id ∈ alKeys s.tracked_centroids) : s.tracked_centroids ≠ [] := by
  intro hh
  rw [hh] at hid
  exact absurd hid (List.not_mem_nil id)

/-- A track that is present, unmatched, and on a path that marks rows missing
(empty input, or at least as many tracked rows as detections) gets exactly the
markMissing treatment in this update: eviction from every map when the
incremented count exceeds the threshold, otherwise an incremented
`missing_count`, a decremented confidence and untouched other entries. -/
theorem obsAt_update_missed {s : CentroidTracker} {rs_in : List Rect}
    {id : ℕ} {m : ℕ} (hA : s.Aligned)
    (hid : id ∈ alKeys s.tracked_centroids)
    (hm : alGet s.missing_count id = some m)
    (hunm : id ∉ s.matchedIds rs_in)
    (hpath : rs_in = [] ∨
      (rs_in ≠ [] ∧ rs_in.length ≤ s.tracked_centroids.length)) :
    ((((m + 1 : ℕ) : ℤ) > s.max_missing_count →
      (s.update rs_in).obsAt id = (none, none, none, none, none, none, none)) ∧
    (¬ (((m + 1 : ℕ) : ℤ) > s.max_missing_count) →
      (s.update rs_in).obsAt id =
        (alGet s.tracked_centroids id, alGet s.vels id,
         alGet s.smoothed_vels id, alGet s.smoothed_vel_handlers id,
         some ((alGet s.confidences id).getD 0 - 1), alGet s.rects id,
         some (m + 1)))) := by
  rcases hpath with h1 | ⟨h1, h3⟩
  · subst h1
    rw [update_nil]
    have hK : id ∈ alKeys s.missing_count := by rw [hA.1]; exact hid
    have hnd : ((alKeys s.missing_count).map (fun j => j)).Nodup := by
      rw [show ((alKeys s.missing_count).map (fun j => j))
          = alKeys s.missing_count from List.map_id _, hA.1]
      exact hA.2.2.2.2.2.2.1
    obtain ⟨K1, y, K2, hsplit, hy, hK1, hK2⟩ :=
      exists_once_of_nodup_map hnd hK rfl
    rw [hsplit]
    exact obsAt_foldl_markMissing_once (fun j => j) K1 K2 y s hy hK1 hK2 hm
  · have h2 := tracked_ne_nil_of_mem hid
    rw [update_match_rows h1 h2 h3]
    have hunm' : ∀ p ∈ s.pairsOf rs_in,
        (alKeys s.tracked_centroids).getD p.1 0 ≠ id := by
      intro p hp hh
      apply hunm
      unfold matchedIds
      rw [matchPairs_eq h1 h2]
      rw [List.mem_map]
      exact ⟨p, hp, hh⟩
    have hobsM : (s.matchFold rs_in).obsAt id = s.obsAt id := by
      unfold matchFold
      exact foldl_obs _ (fun t => t.obsAt id) _ s
        (fun t p hp => obsAt_applyMatch_ne (fun hh => hunm' p hp hh.symm))
    have hcfgM : (s.matchFold rs_in).cfg = s.cfg :=
      foldl_obs _ cfg _ s (fun u p _ => cfg_applyMatch _ _ _ u p)
    obtain ⟨e1, e2, e3, e4, e5, e6, e7⟩ := obsAt_components hobsM
    have hmax : (s.matchFold rs_in).max_missing_count = s.max_missing_count :=
      congrArg (fun q => q.2.1) hcfgM
    -- the row index of our id
    obtain ⟨n, hn, hkn⟩ := List.mem_iff_getElem.mp hid
    have hnR : n < s.tracked_centroids.length := by
      rw [alKeys, List.length_map] at hn
      exact hn
    have hfy : (alKeys s.tracked_centroids).getD n 0 = id := by
      rw [List.getD_eq_getElem _ _ hn]
      exact hkn
    have hmemu : n ∈ unused_rows (s.pairsOf rs_in)
        s.tracked_centroids.length := by
      unfold unused_rows
      rw [List.mem_filter]
      refine ⟨List.mem_range.mpr hnR, ?_⟩
      simp only [decide_eq_true_eq]
      intro hmem
      rw [List.mem_map] at hmem
      obtain ⟨p, hp, hp1⟩ := hmem
      exact hunm' p hp (by rw [hp1]; exact hfy)
    have hnd : ((unused_rows (s.pairsOf rs_in)
        s.tracked_centroids.length).map
          (fun r => (alKeys s.tracked_centroids).getD r 0)).Nodup := by
      apply List.Nodup.map_on
      · intro a ha b hb hab
        unfold unused_rows at ha hb
        have har := List.mem_range.mp (List.mem_of_mem_filter ha)
        have hbr := List.mem_range.mp (List.mem_of_mem_filter hb)
        have hal : a < (alKeys s.tracked_centroids).length := by
          rw [alKeys, List.length_map]; exact har
        have hbl : b < (alKeys s.tracked_centroids).length := by
          rw [alKeys, List.length_map]; exact hbr
        rw [List.getD_eq_getElem _ _ hal, List.getD_eq_getElem _ _ hbl] at hab
        exact (List.Nodup.getElem_inj_iff hA.2.2.2.2.2.2.1).mp hab
      · exact List.Nodup.filter _ (List.nodup_range _)
    obtain ⟨L1, y, L2, hsplit, hy, hL1, hL2⟩ :=
      exists_once_of_nodup_map hnd hmemu hfy
    rw [hsplit]
    have hm' : alGet (s.matchFold rs_in).missing_count id = some m := by
      rw [e7, hm]
    have hres := obsAt_foldl_markMissing_once
      (fun r => (alKeys s.tracked_centroids).getD r 0) L1 L2 y
      (s.matchFold rs_in) hy hL1 hL2 hm'
    constructor
    · intro hgt
      exact (hres.1 (by rw [hmax]; exact hgt))
    · intro hle
      rw [hres.2 (by rw [hmax]; exact hle), e1, e2, e3, e4, e5, e6]

end CentroidTracker

/-! ### Claim C1 -/

/-- C1: for every aligned tracker and tracked id, if an update cycle leaves
the track unmatched on a missing-marking path (empty input, or at least as
many tracked rows as detections) and the incremented `missing_count` equals
`max_missing_count` exactly, the track is still present in the returned
snapshot with that count; if a further such unmatched cycle makes the count
exceed `max_missing_count` (strict greater-than test), the track is removed
from all seven per-track maps within that same update call. -/
theorem c1_eviction_threshold (s : CentroidTracker) (id : ℕ) (m : ℕ)
    (rs1 rs2 : List Rect) (hA : s.Aligned)
    (hid : id ∈ alKeys s.tracked_centroids)
    (hm : alGet s.missing_count id = some m)
    (hmax : ((m + 1 : ℕ) : ℤ) = s.max_missing_count)
    (h1 : id ∉ s.matchedIds rs1)
    (hp1 : rs1 = [] ∨ (rs1 ≠ [] ∧ rs1.length ≤ s.tracked_centroids.length))
    (h2 : id ∉ (s.update rs1).matchedIds rs2)
    (hp2 : rs2 = [] ∨
      (rs2 ≠ [] ∧ rs2.length ≤ (s.update rs1).tracked_centroids.length)) :
    (alGet (s.update rs1).missing_count id = some (m + 1) ∧
     id ∈ alKeys (s.update rs1).tracked_centroids) ∧
    (id ∉ alKeys ((s.update rs1).update rs2).tracked_centroids ∧
     id ∉ alKeys ((s.update rs1).update rs2).missing_count ∧
     id ∉ alKeys ((s.update rs1).update rs2).vels ∧
     id ∉ alKeys ((s.update rs1).update rs2).smoothed_vels ∧
     id ∉ alKeys ((s.update rs1).update rs2).smoothed_vel_handlers ∧
     id ∉ alKeys ((s.update rs1).update rs2).confidences ∧
     id ∉ alKeys ((s.update rs1).update rs2).rects) := by
  have hstep1 := (CentroidTracker.obsAt_update_missed hA hid hm h1 hp1).2
    (by rw [hmax]; exact lt_irrefl _)
  obtain ⟨f1, f2, f3, f4, f5, f6, f7⟩ :=
    CentroidTracker.obsAt_eq_tuple hstep1
  obtain ⟨c0, hc0⟩ := alGet_isSome_of_mem hid
  have hid1 : id ∈ alKeys (s.update rs1).tracked_centroids := by
    rw [← alGet_isSome_iff, f1, hc0]; rfl
  have hm1 : alGet (s.update rs1).missing_count id = some (m + 1) := f7
  have hA1 := CentroidTracker.aligned_update hA rs1
  have hmax1 : (s.update rs1).max_missing_count = s.max_missing_count :=
    congrArg (fun q => q.2.1) (CentroidTracker.cfg_update s rs1)
  have hstep2 := (CentroidTracker.obsAt_update_missed hA1 hid1 hm1 h2 hp2).1
    (by rw [hmax1, ← hmax]; exact_mod_cast lt_add_one _)
  obtain ⟨g1, g2, g3, g4, g5, g6, g7⟩ :=
    CentroidTracker.obsAt_eq_tuple hstep2
  refine ⟨⟨hm1, hid1⟩, ?_, ?_, ?_, ?_, ?_, ?_, ?_⟩ <;>
    rw [← alGet_isSome_iff]
  · rw [g1]; simp
  · rw [g7]; simp
  · rw [g2]; simp
  · rw [g3]; simp
  · rw [g4]; simp
  · rw [g5]; simp
  · rw [g6]; simp

theorem c1_eviction_threshold_witness :
    ((CentroidTracker.init 1 50 10).update [(0, 0, 2, 2)]).Aligned ∧
    0 ∈ alKeys ((CentroidTracker.init 1 50 10).update
      [(0, 0, 2, 2)]).tracked_centroids ∧
    alGet ((CentroidTracker.init 1 50 10).update
      [(0, 0, 2, 2)]).missing_count 0 = some 0 ∧
    (((0 + 1 : ℕ) : ℤ) = ((CentroidTracker.init 1 50 10).update
      [(0, 0, 2, 2)]).max_missing_count) ∧
    ((alGet (((CentroidTracker.init 1 50 10).update
        [(0, 0, 2, 2)]).update []).missing_count 0 = some (0 + 1) ∧
      0 ∈ alKeys (((CentroidTracker.init 1 50 10).update
        [(0, 0, 2, 2)]).update []).tracked_centroids) ∧
     (0 ∉ alKeys ((((CentroidTracker.init 1 50 10).update
        [(0, 0, 2, 2)]).update []).update []).tracked_centroids ∧
      0 ∉ alKeys ((((CentroidTracker.init 1 50 10).update
        [(0, 0, 2, 2)]).update []).update []).missing_count ∧
      0 ∉ alKeys ((((CentroidTracker.init 1 50 10).update
        [(0, 0, 2, 2)]).update []).update []).vels ∧
      0 ∉ alKeys ((((CentroidTracker.init 1 50 10).update
        [(0, 0, 2, 2)]).update []).update []).smoothed_vels ∧
      0 ∉ alKeys ((((CentroidTracker.init 1 50 10).update
        [(0, 0, 2, 2)]).update []).update []).smoothed_vel_handlers ∧
      0 ∉ alKeys ((((CentroidTracker.init 1 50 10).update
        [(0, 0, 2, 2)]).update []).update []).confidences ∧
      0 ∉ alKeys ((((CentroidTracker.init 1 50 10).update
        [(0, 0, 2, 2)]).update []).update []).rects)) :=
  ⟨by with_unfolding_all decide, by with_unfolding_all decide,
   by with_unfolding_all decide, by with_unfolding_all decide,
   c1_eviction_threshold ((CentroidTracker.init 1 50 10).update [(0, 0, 2, 2)])
     0 0 [] [] (by with_unfolding_all decide) (by with_unfolding_all decide)
     (by with_unfolding_all decide) (by with_unfolding_all decide)
     (by with_unfolding_all decide) (Or.inl rfl)
     (by with_unfolding_all decide) (Or.inl rfl)⟩

/-! ### Per-id effect of the matching loop and of registration -/

namespace CentroidTracker

theorem obsAt_applyMatch_self (ids : List ℕ) (iC : List (ℤ × ℤ))
    (rs_in : List Rect) (s : CentroidTracker) (p : ℕ × ℕ) :
    (applyMatch ids iC rs_in s p).obsAt (ids.getD p.1 0) =
      (some (iC.getD p.2 (0, 0)),
       some (((((alGet s.tracked_centroids (ids.getD p.1 0)).getD (0, 0)).1
          - (iC.getD p.2 (0, 0)).1 : ℤ) : ℚ),
         ((((alGet s.tracked_centroids (ids.getD p.1 0)).getD (0, 0)).2
          - (iC.getD p.2 (0, 0)).2 : ℤ) : ℚ)),
       some ((((alGet s.smoothed_vel_handlers (ids.getD p.1 0)).getD
          (MovingAverage.initialise s.smoothed_vel_window (0, 0))).update
            (((((alGet s.tracked_centroids (ids.getD p.1 0)).getD (0, 0)).1
              - (iC.getD p.2 (0, 0)).1 : ℤ) : ℚ),
             ((((alGet s.tracked_centroids (ids.getD p.1 0)).getD (0, 0)).2
              - (iC.getD p.2 (0, 0)).2 : ℤ) : ℚ))).average),
       some (((alGet s.smoothed_vel_handlers (ids.getD p.1 0)).getD
          (MovingAverage.initialise s.smoothed_vel_window (0, 0))).update
            (((((alGet s.tracked_centroids (ids.getD p.1 0)).getD (0, 0)).1
              - (iC.getD p.2 (0, 0)).1 : ℤ) : ℚ),
             ((((alGet s.tracked_centroids (ids.getD p.1 0)).getD (0, 0)).2
              - (iC.getD p.2 (0, 0)).2 : ℤ) : ℚ))),
       some ((alGet s.confidences (ids.getD p.1 0)).getD 0 + 2),
       some (rs_in.getD p.2 (0, 0, 0, 0)), some 0) := by
  unfold obsAt applyMatch
  dsimp only
  rw [alGet_alSet_self, alGet_alSet_self, alGet_alSet_self, alGet_alSet_self,
    alGet_alSet_self, alGet_alSet_self, alGet_alSet_self]

/-- The ids matched by distinct accepted pairs are distinct. -/
theorem pairsOf_idOf_ne {s : CentroidTracker} {rs_in : List Rect}
    (hA : s.Aligned) (hR : rs_in ≠ []) {p q : ℕ × ℕ}
    (hp : p ∈ s.pairsOf rs_in) (hq : q ∈ s.pairsOf rs_in)
    (hne : p.1 ≠ q.1) :
    (alKeys s.tracked_centroids).getD p.1 0
      ≠ (alKeys s.tracked_centroids).getD q.1 0 := by
  have hpl : p.1 < (alKeys s.tracked_centroids).length := by
    rw [alKeys, List.length_map]
    exact (pairsOf_lt hR hp).1
  have hql : q.1 < (alKeys s.tracked_centroids).length := by
    rw [alKeys, List.length_map]
    exact (pairsOf_lt hR hq).1
  intro hh
  rw [List.getD_eq_getElem _ _ hpl, List.getD_eq_getElem _ _ hql] at hh
  exact hne ((List.Nodup.getElem_inj_iff hA.2.2.2.2.2.2.1).mp hh)

/-- Effect of the whole matching loop on a matched id, in terms of the
pre-loop state. -/
theorem obsAt_matchFold_matched {s : CentroidTracker} {rs_in : List Rect}
    {p : ℕ × ℕ} (hA : s.Aligned) (hR : rs_in ≠ [])
    (hp : p ∈ s.pairsOf rs_in) :
    (s.matchFold rs_in).obsAt ((alKeys s.tracked_centroids).getD p.1 0) =
      (some ((rs_in.map centroidOf).getD p.2 (0, 0)),
       some (((((alGet s.tracked_centroids
            ((alKeys s.tracked_centroids).getD p.1 0)).getD (0, 0)).1
          - ((rs_in.map centroidOf).getD p.2 (0, 0)).1 : ℤ) : ℚ),
         ((((alGet s.tracked_centroids
            ((alKeys s.tracked_centroids).getD p.1 0)).getD (0, 0)).2
          - ((rs_in.map centroidOf).getD p.2 (0, 0)).2 : ℤ) : ℚ)),
       some ((((alGet s.smoothed_vel_handlers
            ((alKeys s.tracked_centroids).getD p.1 0)).getD
          (MovingAverage.initialise s.smoothed_vel_window (0, 0))).update
            (((((alGet s.tracked_centroids
                ((alKeys s.tracked_centroids).getD p.1 0)).getD (0, 0)).1
              - ((rs_in.map centroidOf).getD p.2 (0, 0)).1 : ℤ) : ℚ),
             ((((alGet s.tracked_centroids
                ((alKeys s.tracked_centroids).getD p.1 0)).getD (0, 0)).2
              - ((rs_in.map centroidOf).getD p.2 (0, 0)).2 : ℤ) : ℚ))).average),
       some (((alGet s.smoothed_vel_handlers
            ((alKeys s.tracked_centroids).getD p.1 0)).getD
          (MovingAverage.initialise s.smoothed_vel_window (0, 0))).update
            (((((alGet s.tracked_centroids
                ((alKeys s.tracked_centroids).getD p.1 0)).getD (0, 0)).1
              - ((rs_in.map centroidOf).getD p.2 (0, 0)).1 : ℤ) : ℚ),
             ((((alGet s.tracked_centroids
                ((alKeys s.tracked_centroids).getD p.1 0)).getD (0, 0)).2
              - ((rs_in.map centroidOf).getD p.2 (0, 0)).2 : ℤ) : ℚ))),
       some ((alGet s.confidences
          ((alKeys s.tracked_centroids).getD p.1 0)).getD 0 + 2),
       some (rs_in.getD p.2 (0, 0, 0, 0)), some 0) := by
  have hnd : ((s.pairsOf rs_in).map Prod.fst).Nodup := pairsOf_fst_nodup s rs_in
  obtain ⟨P1, P2, hsplit⟩ := List.append_of_mem hp
  have hsub1 : ∀ q ∈ P1, q ∈ s.pairsOf rs_in := by
    intro q hq; rw [hsplit]; exact List.mem_append_left _ hq
  have hsub2 : ∀ q ∈ P2, q ∈ s.pairsOf rs_in := by
    intro q hq
    rw [hsplit]
    exact List.mem_append_right _ (List.mem_cons_of_mem p hq)
  have hne1 : ∀ q ∈ P1, q.1 ≠ p.1 := by
    intro q hq hh
    rw [hsplit, List.map_append, List.map_cons, List.nodup_append] at hnd
    exact hnd.2.2 (List.mem_map_of_mem Prod.fst hq)
      (by rw [hh]; exact List.mem_cons_self _ _)
  have hne2 : ∀ q ∈ P2, q.1 ≠ p.1 := by
    intro q hq hh
    rw [hsplit, List.map_append, List.map_cons, List.nodup_append] at hnd
    rw [List.nodup_cons] at hnd
    exact hnd.2.1.1 (by rw [← hh]; exact List.mem_map_of_mem Prod.fst hq)
  unfold matchFold
  rw [hsplit, List.foldl_append, List.foldl_cons]
  have hobs1 : (P1.foldl (applyMatch (alKeys s.tracked_centroids)
      (rs_in.map centroidOf) rs_in) s).obsAt
        ((alKeys s.tracked_centroids).getD p.1 0) =
      s.obsAt ((alKeys s.tracked_centroids).getD p.1 0) :=
    foldl_obs _ (fun t => t.obsAt ((alKeys s.tracked_centroids).getD p.1 0))
      P1 s (fun t q hq => obsAt_applyMatch_ne
      (pairsOf_idOf_ne hA hR hp (hsub1 q hq) (fun hh => hne1 q hq hh.symm)))
  have hcfg1 : (P1.foldl (applyMatch (alKeys s.tracked_centroids)
      (rs_in.map centroidOf) rs_in) s).cfg = s.cfg :=
    foldl_obs _ cfg P1 s (fun t q _ => cfg_applyMatch _ _ _ t q)
  obtain ⟨e1, e2, e3, e4, e5, e6, e7⟩ := obsAt_components hobs1
  have hw : (P1.foldl (applyMatch (alKeys s.tracked_centroids)
      (rs_in.map centroidOf) rs_in) s).smoothed_vel_window
        = s.smoothed_vel_window := congrArg (fun q => q.1) hcfg1
  have hpres : ∀ (t : CentroidTracker), (P2.foldl (applyMatch
      (alKeys s.tracked_centroids) (rs_in.map centroidOf) rs_in) t).obsAt
        ((alKeys s.tracked_centroids).getD p.1 0) =
      t.obsAt ((alKeys s.tracked_centroids).getD p.1 0) :=
    fun t => foldl_obs _
      (fun u => u.obsAt ((alKeys s.tracked_centroids).getD p.1 0))
      P2 t (fun u q hq => obsAt_applyMatch_ne
      (pairsOf_idOf_ne hA hR hp (hsub2 q hq) (fun hh => hne2 q hq hh.symm)))
  rw [hpres, obsAt_applyMatch_self, e1, e4, e5, hw]

theorem next_id_foldl_register {ι : Type} (g : ι → ℤ × ℤ) :
    ∀ (L : List ι) (s : CentroidTracker),
      (L.foldl (fun t c => t.register (g c)) s).next_id
        = s.next_id + L.length := by
  intro L
  induction L with
  | nil => intro s; rfl
  | cons x L ih =>
      intro s
      rw [List.foldl_cons, ih, next_id_register, List.length_cons]
      omega

theorem next_id_matchFold (s : CentroidTracker) (rs_in : List Rect) :
    (s.matchFold rs_in).next_id = s.next_id := by
  unfold matchFold
  exact foldl_obs _ next_id _ s (fun u p _ => next_id_applyMatch _ _ _ u p)

theorem obsAt_foldl_register_old {ι : Type} (g : ι → ℤ × ℤ) {id : ℕ} :
    ∀ (L : List ι) (s : CentroidTracker), id < s.next_id →
      (L.foldl (fun t c => t.register (g c)) s).obsAt id = s.obsAt id ∧
      id < (L.foldl (fun t c => t.register (g c)) s).next_id := by
  intro L s h0
  have := foldl_obs_inv (fun t c => t.register (g c))
    (fun t => t.obsAt id) (fun t => id < t.next_id) L s h0
    (fun t x _ hP => by
      have hP' : id < t.next_id := hP
      show id < (t.register (g x)).next_id
      rw [next_id_register]
      omega)
    (fun t x _ hP => by
      have hP' : id < t.next_id := hP
      exact obsAt_register_ne (g x)
        (fun hh => absurd hP' (by rw [hh]; exact lt_irrefl _)))
  exact this

theorem obsAt_register_self (s : CentroidTracker) (c : ℤ × ℤ) :
    (s.register c).obsAt s.next_id =
      (some c, some (0, 0), some (0, 0),
       some (MovingAverage.initialise s.smoothed_vel_window (0, 0)),
       some 0, some ((0, 0, 0, 0) : Rect), some 0) := by
  unfold obsAt register
  dsimp only
  rw [alGet_alSet_self, alGet_alSet_self, alGet_alSet_self, alGet_alSet_self,
    alGet_alSet_self, alGet_alSet_self, alGet_alSet_self]

theorem keys_register {s : CentroidTracker} (hA : s.Aligned) (c : ℤ × ℤ) :
    alKeys (s.register c).tracked_centroids
      = alKeys s.tracked_centroids ++ [s.next_id] := by
  unfold register
  dsimp only
  exact alKeys_alSet_of_not_mem _ (fun h => lt_irrefl _ (hA.2.2.2.2.2.2.2 _ h))

/-- A track first registered during a register fold carries the freshly
initialised per-track entries: some centroid, zero velocities, a zero-seeded
MovingAverage over the configured window, confidence 0, the placeholder rect
and missing count 0. -/
theorem obsAt_foldl_register_new {ι : Type} (g : ι → ℤ × ℤ) :
    ∀ (L : List ι) (s : CentroidTracker) {id : ℕ}, s.Aligned →
      id ∉ alKeys s.tracked_centroids →
      id ∈ alKeys (L.foldl (fun t c => t.register (g c)) s).tracked_centroids →
      ∃ c, (L.foldl (fun t c => t.register (g c)) s).obsAt id =
        (some c, some (0, 0), some (0, 0),
         some (MovingAverage.initialise s.smoothed_vel_window (0, 0)),
         some 0, some ((0, 0, 0, 0) : Rect), some 0) := by
  intro L
  induction L with
  | nil => intro s id hA hout hin; exact absurd hin hout
  | cons x L ih =>
      intro s id hA hout hin
      rw [List.foldl_cons] at hin ⊢
      by_cases hid : id = s.next_id
      · subst hid
        refine ⟨g x, ?_⟩
        rw [(obsAt_foldl_register_old g L (s.register (g x))
          (by rw [next_id_register]; omega)).1]
        exact obsAt_register_self s (g x)
      · have hout' : id ∉ alKeys (s.register (g x)).tracked_centroids := by
          rw [keys_register hA (g x), List.mem_append, List.mem_singleton]
          rintro (h | h)
          · exact hout h
          · exact hid h
        obtain ⟨c, hc⟩ := ih (s.register (g x)) (aligned_register hA (g x))
          hout' hin
        refine ⟨c, ?_⟩
        rw [hc]
        rfl

end CentroidTracker

/-! ### Claim C2 -/

/-- C2: in the matching path (nonempty input, nonempty tracked set), unmatched
tracked rows are treated as missing (missing_count incremented, confidence
decremented, eviction past the threshold) exactly in the branch taken when
there are at least as many tracked centroids as detections, and in that branch
no track is registered (`next_id` unchanged); unmatched detection columns are
registered as new tracks exactly in the branch taken when there are strictly
more detections than tracked centroids, and in that branch no existing
track's missing count is incremented (it is reset to 0 on a match or left
unchanged).  Hence when the counts are equal, every unmatched detection is
dropped without creating a new track. -/
theorem c2_count_asymmetry (s : CentroidTracker) (rs_in : List Rect)
    (hA : s.Aligned) (hT : s.tracked_centroids ≠ []) (hR : rs_in ≠ []) :
    (rs_in.length ≤ s.tracked_centroids.length →
      (s.update rs_in).next_id = s.next_id ∧
      ∀ row < s.tracked_centroids.length,
        row ∉ (s.pairsOf rs_in).map Prod.fst →
        ∀ m, alGet s.missing_count
            ((alKeys s.tracked_centroids).getD row 0) = some m →
          ((((m + 1 : ℕ) : ℤ) > s.max_missing_count ∧
            (alKeys s.tracked_centroids).getD row 0
              ∉ alKeys (s.update rs_in).tracked_centroids) ∨
           (¬ (((m + 1 : ℕ) : ℤ) > s.max_missing_count) ∧
            alGet (s.update rs_in).missing_count
              ((alKeys s.tracked_centroids).getD row 0) = some (m + 1) ∧
            alGet (s.update rs_in).confidences
              ((alKeys s.tracked_centroids).getD row 0) =
              some ((alGet s.confidences
                ((alKeys s.tracked_centroids).getD row 0)).getD 0 - 1)))) ∧
    (s.tracked_centroids.length < rs_in.length →
      (s.update rs_in).next_id = s.next_id +
        (CentroidTracker.unused_cols (s.pairsOf rs_in) rs_in.length).length ∧
      ∀ id ∈ alKeys s.tracked_centroids, ∃ m',
        alGet (s.update rs_in).missing_count id = some m' ∧
        (m' = 0 ∨ alGet s.missing_count id = some m')) := by
  constructor
  · intro h3
    constructor
    · rw [CentroidTracker.update_match_rows hR hT h3]
      rw [CentroidTracker.foldl_obs _ CentroidTracker.next_id _ _
        (fun u r _ => CentroidTracker.next_id_markMissing u _)]
      exact CentroidTracker.next_id_matchFold s rs_in
    · intro row hrow hunm m hm
      have hrowk : row < (alKeys s.tracked_centroids).length := by
        rw [alKeys, List.length_map]; exact hrow
      have hid : (alKeys s.tracked_centroids).getD row 0
          ∈ alKeys s.tracked_centroids := CentroidTracker.mem_getD_self hrowk
      have hunmid : (alKeys s.tracked_centroids).getD row 0
          ∉ s.matchedIds rs_in := by
        intro hmem
        unfold CentroidTracker.matchedIds at hmem
        rw [CentroidTracker.matchPairs_eq hR hT, List.mem_map] at hmem
        obtain ⟨p, hp, hpid⟩ := hmem
        have hpl : p.1 < (alKeys s.tracked_centroids).length := by
          rw [alKeys, List.length_map]
          exact (CentroidTracker.pairsOf_lt hR hp).1
        have : p.1 = row := by
          rw [List.getD_eq_getElem _ _ hpl, List.getD_eq_getElem _ _ hrowk]
            at hpid
          exact (List.Nodup.getElem_inj_iff hA.2.2.2.2.2.2.1).mp hpid
        exact hunm (this ▸ List.mem_map_of_mem Prod.fst hp)
      have heff := CentroidTracker.obsAt_update_missed hA hid hm hunmid
        (Or.inr ⟨hR, h3⟩)
      by_cases hgt : (((m + 1 : ℕ) : ℤ) > s.max_missing_count)
      · left
        refine ⟨hgt, ?_⟩
        obtain ⟨g1, _, _, _, _, _, _⟩ :=
          CentroidTracker.obsAt_eq_tuple (heff.1 hgt)
        rw [← alGet_isSome_iff, g1]
        simp
      · right
        obtain ⟨_, _, _, _, g5, _, g7⟩ :=
          CentroidTracker.obsAt_eq_tuple (heff.2 hgt)
        exact ⟨hgt, g7, g5⟩
  · intro h3
    have h3' : ¬ rs_in.length ≤ s.tracked_centroids.length := by omega
    constructor
    · rw [CentroidTracker.update_match_cols hR hT h3']
      rw [CentroidTracker.next_id_foldl_register]
      rw [CentroidTracker.next_id_matchFold s rs_in]
    · intro id hidk
      have hlt : id < s.next_id := hA.2.2.2.2.2.2.2 id hidk
      have hltM : id < (s.matchFold rs_in).next_id := by
        rw [CentroidTracker.next_id_matchFold s rs_in]
        exact hlt
      rw [CentroidTracker.update_match_cols hR hT h3']
      by_cases hmatch : id ∈ s.matchedIds rs_in
      · unfold CentroidTracker.matchedIds at hmatch
        rw [CentroidTracker.matchPairs_eq hR hT, List.mem_map] at hmatch
        obtain ⟨p, hp, hpid⟩ := hmatch
        have heff := CentroidTracker.obsAt_matchFold_matched hA hR hp
        rw [hpid] at heff
        obtain ⟨_, _, _, _, _, _, g7⟩ := CentroidTracker.obsAt_eq_tuple heff
        refine ⟨0, ?_, Or.inl rfl⟩
        have hreg := (CentroidTracker.obsAt_foldl_register_old
          (fun c => ((rs_in.map centroidOf).getD c (0, 0)))
          (CentroidTracker.unused_cols (s.pairsOf rs_in) rs_in.length)
          (s.matchFold rs_in) hltM).1
        obtain ⟨_, _, _, _, _, _, k7⟩ :=
          CentroidTracker.obsAt_components hreg
        rw [k7, g7]
      · obtain ⟨m, hm⟩ := alGet_isSome_of_mem (by rw [hA.1]; exact hidk)
        have hunmid : ∀ p ∈ s.pairsOf rs_in,
            (alKeys s.tracked_centroids).getD p.1 0 ≠ id := by
          intro p hp hh
          apply hmatch
          unfold CentroidTracker.matchedIds
          rw [CentroidTracker.matchPairs_eq hR hT, List.mem_map]
          exact ⟨p, hp, hh⟩
        have hobsM : (s.matchFold rs_in).obsAt id = s.obsAt id := by
          unfold CentroidTracker.matchFold
          exact CentroidTracker.foldl_obs _ (fun t => t.obsAt id) _ s
            (fun t p hp => CentroidTracker.obsAt_applyMatch_ne
              (fun hh => hunmid p hp hh.symm))
        obtain ⟨_, _, _, _, _, _, g7⟩ :=
          CentroidTracker.obsAt_components hobsM
        have hreg := (CentroidTracker.obsAt_foldl_register_old
          (fun c => ((rs_in.map centroidOf).getD c (0, 0)))
          (CentroidTracker.unused_cols (s.pairsOf rs_in) rs_in.length)
          (s.matchFold rs_in) hltM).1
        obtain ⟨_, _, _, _, _, _, k7⟩ :=
          CentroidTracker.obsAt_components hreg
        refine ⟨m, ?_, Or.inr hm⟩
        rw [k7, g7, hm]

theorem c2_count_asymmetry_witness :
    ((CentroidTracker.init 50 50 10).update [(0, 0, 2, 2)]).Aligned ∧
    ((CentroidTracker.init 50 50 10).update
      [(0, 0, 2, 2)]).tracked_centroids ≠ [] ∧
    ([(200, 200, 202, 202)] : List Rect) ≠ [] ∧
    ((([(200, 200, 202, 202)] : List Rect).length ≤
        ((CentroidTracker.init 50 50 10).update
          [(0, 0, 2, 2)]).tracked_centroids.length →
      (((CentroidTracker.init 50 50 10).update [(0, 0, 2, 2)]).update
          [(200, 200, 202, 202)]).next_id =
        ((CentroidTracker.init 50 50 10).update [(0, 0, 2, 2)]).next_id ∧
      ∀ row < ((CentroidTracker.init 50 50 10).update
          [(0, 0, 2, 2)]).tracked_centroids.length,
        row ∉ (((CentroidTracker.init 50 50 10).update
            [(0, 0, 2, 2)]).pairsOf [(200, 200, 202, 202)]).map Prod.fst →
        ∀ m, alGet ((CentroidTracker.init 50 50 10).update
              [(0, 0, 2, 2)]).missing_count
            ((alKeys ((CentroidTracker.init 50 50 10).update
              [(0, 0, 2, 2)]).tracked_centroids).getD row 0) = some m →
          ((((m + 1 : ℕ) : ℤ) > ((CentroidTracker.init 50 50 10).update
              [(0, 0, 2, 2)]).max_missing_count ∧
            (alKeys ((CentroidTracker.init 50 50 10).update
              [(0, 0, 2, 2)]).tracked_centroids).getD row 0
              ∉ alKeys (((CentroidTracker.init 50 50 10).update
                [(0, 0, 2, 2)]).update
                  [(200, 200, 202, 202)]).tracked_centroids) ∨
           (¬ (((m + 1 : ℕ) : ℤ) > ((CentroidTracker.init 50 50 10).update
              [(0, 0, 2, 2)]).max_missing_count) ∧
            alGet ((((CentroidTracker.init 50 50 10).update
              [(0, 0, 2, 2)]).update [(200, 200, 202, 202)])).missing_count
              ((alKeys ((CentroidTracker.init 50 50 10).update
                [(0, 0, 2, 2)]).tracked_centroids).getD row 0) = some (m + 1) ∧
            alGet ((((CentroidTracker.init 50 50 10).update
              [(0, 0, 2, 2)]).update [(200, 200, 202, 202)])).confidences
              ((alKeys ((CentroidTracker.init 50 50 10).update
                [(0, 0, 2, 2)]).tracked_centroids).getD row 0) =
              some ((alGet ((CentroidTracker.init 50 50 10).update
                [(0, 0, 2, 2)]).confidences
                ((alKeys ((CentroidTracker.init 50 50 10).update
                  [(0, 0, 2, 2)]).tracked_centroids).getD row 0)).getD 0
                  - 1)))) ∧
     (((CentroidTracker.init 50 50 10).update
          [(0, 0, 2, 2)]).tracked_centroids.length <
        ([(200, 200, 202, 202)] : List Rect).length →
      (((CentroidTracker.init 50 50 10).update [(0, 0, 2, 2)]).update
          [(200, 200, 202, 202)]).next_id =
        ((CentroidTracker.init 50 50 10).update [(0, 0, 2, 2)]).next_id +
        (CentroidTracker.unused_cols (((CentroidTracker.init 50 50 10).update
            [(0, 0, 2, 2)]).pairsOf [(200, 200, 202, 202)])
          ([(200, 200, 202, 202)] : List Rect).length).length ∧
      ∀ id ∈ alKeys ((CentroidTracker.init 50 50 10).update
          [(0, 0, 2, 2)]).tracked_centroids, ∃ m',
        alGet ((((CentroidTracker.init 50 50 10).update
          [(0, 0, 2, 2)]).update [(200, 200, 202, 202)])).missing_count id
            = some m' ∧
        (m' = 0 ∨ alGet ((CentroidTracker.init 50 50 10).update
          [(0, 0, 2, 2)]).missing_count id = some m'))) :=
  ⟨by with_unfolding_all decide, by with_unfolding_all decide,
   by with_unfolding_all decide,
   c2_count_asymmetry ((CentroidTracker.init 50 50 10).update [(0, 0, 2, 2)])
     [(200, 200, 202, 202)] (by with_unfolding_all decide)
     (by with_unfolding_all decide) (by with_unfolding_all decide)⟩

namespace CentroidTracker

theorem mem_tracked_markMissing {t : CentroidTracker} {j id : ℕ}
    (h : id ∈ alKeys (t.markMissing j).tracked_centroids) :
    id ∈ alKeys t.tracked_centroids := by
  unfold markMissing at h
  split at h
  · exact (mem_alKeys_alErase.mp h).1
  · exact h

theorem mem_tracked_foldl_markMissing {ι : Type} (f : ι → ℕ) :
    ∀ (L : List ι) (t : CentroidTracker) {id : ℕ},
      id ∈ alKeys ((L.foldl (fun u j => u.markMissing (f j)) t).tracked_centroids) →
      id ∈ alKeys t.tracked_centroids := by
  intro L
  induction L with
  | nil => intro t id h; exact h
  | cons x L ih =>
      intro t id h
      rw [List.foldl_cons] at h
      exact mem_tracked_markMissing (ih _ h)

/-- The post-matching branch of `update` (marking unused rows missing, or
registering unused columns) does not touch a matched id, so on a matched id
`update` observes exactly the matching loop's effect. -/
theorem obsAt_update_matched {s : CentroidTracker} {rs_in : List Rect}
    {id : ℕ} (hA : s.Aligned) (hmid : id ∈ s.matchedIds rs_in) :
    ∃ p ∈ s.pairsOf rs_in,
      (alKeys s.tracked_centroids).getD p.1 0 = id ∧
      (s.update rs_in).obsAt id = (s.matchFold rs_in).obsAt id ∧
      rs_in ≠ [] ∧ s.tracked_centroids ≠ [] := by
  unfold matchedIds matchPairs at hmid
  by_cases h1 : rs_in = []
  · rw [if_pos h1] at hmid
    exact absurd hmid (by simp)
  · by_cases h2 : s.tracked_centroids = []
    · rw [if_neg h1, if_pos h2] at hmid
      exact absurd hmid (by simp)
    · rw [if_neg h1, if_neg h2, List.mem_map] at hmid
      obtain ⟨p, hp, hpid⟩ := hmid
      refine ⟨p, hp, hpid, ?_, h1, h2⟩
      have hidk : id ∈ alKeys s.tracked_centroids := by
        rw [← hpid]
        apply mem_getD_self
        rw [alKeys, List.length_map]
        exact (pairsOf_lt h1 hp).1
      by_cases h3 : rs_in.length ≤ s.tracked_centroids.length
      · rw [update_match_rows h1 h2 h3]
        apply foldl_obs _ (fun t => t.obsAt id)
        intro t r hr
        apply obsAt_markMissing_ne
        intro hh
        unfold unused_rows at hr
        rw [List.mem_filter] at hr
        have hrR := List.mem_range.mp hr.1
        have hrne : r ≠ p.1 := by
          intro hrp
          have : r ∈ (s.pairsOf rs_in).map Prod.fst :=
            hrp ▸ List.mem_map_of_mem Prod.fst hp
          revert this
          simpa using hr.2
        have hrk : r < (alKeys s.tracked_centroids).length := by
          rw [alKeys, List.length_map]; exact hrR
        have hpk : p.1 < (alKeys s.tracked_centroids).length := by
          rw [alKeys, List.length_map]; exact (pairsOf_lt h1 hp).1
        apply hrne
        have hgr : (alKeys s.tracked_centroids).getD r 0
            = (alKeys s.tracked_centroids).getD p.1 0 := by
          rw [← hh, hpid]
        rw [List.getD_eq_getElem _ _ hrk, List.getD_eq_getElem _ _ hpk] at hgr
        exact (List.Nodup.getElem_inj_iff hA.2.2.2.2.2.2.1).mp hgr
      · rw [update_match_cols h1 h2 h3]
        have hlt : id < s.next_id := hA.2.2.2.2.2.2.2 id hidk
        have hltM : id < (s.matchFold rs_in).next_id := by
          rw [next_id_matchFold]; exact hlt
        exact (obsAt_foldl_register_old _ _ _ hltM).1

end CentroidTracker

/-! ### Claim C9 -/

/-- C9: a track that is registered during an update reports the placeholder
box (0, 0, 0, 0) in that update's snapshot, not the detection box that caused
its registration; an update in which a surviving track is not matched leaves
its stored box unchanged — so the reported box stays (0, 0, 0, 0) from
registration until the first successful match; a stored box only ever changes
to one of the current call's input boxes; and on a match the reported box is
one of the current call's input boxes. -/
theorem c9_placeholder_rect (s : CentroidTracker) (rs_in : List Rect)
    (hA : s.Aligned) :
    (∀ id, id ∉ alKeys s.tracked_centroids →
      id ∈ alKeys (s.update rs_in).tracked_centroids →
      alGet (s.update rs_in).rects id = some ((0, 0, 0, 0) : Rect)) ∧
    (∀ id ∈ alKeys s.tracked_centroids, id ∉ s.matchedIds rs_in →
      id ∈ alKeys (s.update rs_in).tracked_centroids →
      alGet (s.update rs_in).rects id = alGet s.rects id) ∧
    (∀ id ∈ alKeys s.tracked_centroids, ∀ r : Rect,
      alGet (s.update rs_in).rects id = some r →
      alGet s.rects id = some r ∨ r ∈ rs_in) ∧
    (∀ id ∈ s.matchedIds rs_in, ∃ r ∈ rs_in,
      alGet (s.update rs_in).rects id = some r) := by
  refine ⟨?_, ?_, ?_, ?_⟩
  · intro id hout hin
    by_cases h1 : rs_in = []
    · subst h1
      rw [CentroidTracker.update_nil] at hin
      exact absurd (CentroidTracker.mem_tracked_foldl_markMissing
        (fun j => j) (alKeys s.missing_count) s hin) hout
    · by_cases h2 : s.tracked_centroids = []
      · rw [CentroidTracker.update_bootstrap h1 h2] at hin ⊢
        obtain ⟨c, hc⟩ := CentroidTracker.obsAt_foldl_register_new
          (fun c => c) (rs_in.map centroidOf) s hA hout hin
        exact (CentroidTracker.obsAt_eq_tuple hc).2.2.2.2.2.1
      · by_cases h3 : rs_in.length ≤ s.tracked_centroids.length
        · rw [CentroidTracker.update_match_rows h1 h2 h3] at hin
          have hmem := CentroidTracker.mem_tracked_foldl_markMissing
            (fun r => (alKeys s.tracked_centroids).getD r 0) _ _ hin
          rw [(CentroidTracker.matchFold_aligned hA h1).2.1] at hmem
          exact absurd hmem hout
        · rw [CentroidTracker.update_match_cols h1 h2 h3] at hin ⊢
          have hAm := (CentroidTracker.matchFold_aligned hA h1).1
          have houtm : id ∉ alKeys (s.matchFold rs_in).tracked_centroids := by
            rw [(CentroidTracker.matchFold_aligned hA h1).2.1]
            exact hout
          obtain ⟨c, hc⟩ := CentroidTracker.obsAt_foldl_register_new
            (fun c => ((rs_in.map centroidOf).getD c (0, 0))) _ _ hAm houtm hin
          exact (CentroidTracker.obsAt_eq_tuple hc).2.2.2.2.2.1
  · intro id hidk hunm hin
    by_cases h1 : rs_in = []
    · subst h1
      obtain ⟨m, hm⟩ := alGet_isSome_of_mem (by rw [hA.1]; exact hidk)
      have heff := CentroidTracker.obsAt_update_missed hA hidk hm hunm
        (Or.inl rfl)
      by_cases hgt : (((m + 1 : ℕ) : ℤ) > s.max_missing_count)
      · have h1c := (CentroidTracker.obsAt_eq_tuple (heff.1 hgt)).1
        rw [← alGet_isSome_iff, h1c] at hin
        exact absurd hin (by simp)
      · exact (CentroidTracker.obsAt_eq_tuple (heff.2 hgt)).2.2.2.2.2.1
    · have hT : s.tracked_centroids ≠ [] :=
        CentroidTracker.tracked_ne_nil_of_mem hidk
      by_cases h3 : rs_in.length ≤ s.tracked_centroids.length
      · obtain ⟨m, hm⟩ := alGet_isSome_of_mem (by rw [hA.1]; exact hidk)
        have heff := CentroidTracker.obsAt_update_missed hA hidk hm hunm
          (Or.inr ⟨h1, h3⟩)
        by_cases hgt : (((m + 1 : ℕ) : ℤ) > s.max_missing_count)
        · have h1c := (CentroidTracker.obsAt_eq_tuple (heff.1 hgt)).1
          rw [← alGet_isSome_iff, h1c] at hin
          exact absurd hin (by simp)
        · exact (CentroidTracker.obsAt_eq_tuple (heff.2 hgt)).2.2.2.2.2.1
      · have hunmid : ∀ p ∈ s.pairsOf rs_in,
            (alKeys s.tracked_centroids).getD p.1 0 ≠ id := by
          intro p hp hh
          apply hunm
          unfold CentroidTracker.matchedIds
          rw [CentroidTracker.matchPairs_eq h1 hT, List.mem_map]
          exact ⟨p, hp, hh⟩
        have hobsM : (s.matchFold rs_in).obsAt id = s.obsAt id := by
          unfold CentroidTracker.matchFold
          exact CentroidTracker.foldl_obs _ (fun t => t.obsAt id) _ s
            (fun t p hp => CentroidTracker.obsAt_applyMatch_ne
              (fun hh => hunmid p hp hh.symm))
        have hltM : id < (s.matchFold rs_in).next_id := by
          rw [CentroidTracker.next_id_matchFold]
          exact hA.2.2.2.2.2.2.2 id hidk
        rw [CentroidTracker.update_match_cols h1 hT h3]
        have hreg := (CentroidTracker.obsAt_foldl_register_old
          (fun c => ((rs_in.map centroidOf).getD c (0, 0)))
          (CentroidTracker.unused_cols (s.pairsOf rs_in) rs_in.length)
          (s.matchFold rs_in) hltM).1
        rw [(CentroidTracker.obsAt_components hreg).2.2.2.2.2.1]
        exact (CentroidTracker.obsAt_components hobsM).2.2.2.2.2.1
  · intro id hidk r hr
    by_cases h1 : rs_in = []
    · subst h1
      obtain ⟨m, hm⟩ := alGet_isSome_of_mem (by rw [hA.1]; exact hidk)
      have heff := CentroidTracker.obsAt_update_missed hA hidk hm
        (by simp [CentroidTracker.matchedIds, CentroidTracker.matchPairs])
        (Or.inl rfl)
      by_cases hgt : (((m + 1 : ℕ) : ℤ) > s.max_missing_count)
      · have h6 := (CentroidTracker.obsAt_eq_tuple (heff.1 hgt)).2.2.2.2.2.1
        rw [h6] at hr
        exact absurd hr (by simp)
      · have h6 := (CentroidTracker.obsAt_eq_tuple (heff.2 hgt)).2.2.2.2.2.1
        rw [h6] at hr
        exact Or.inl hr
    · by_cases hmatch : id ∈ s.matchedIds rs_in
      · obtain ⟨p, hp, hpid, hobs, hR, hT⟩ :=
          CentroidTracker.obsAt_update_matched hA hmatch
        have htup := CentroidTracker.obsAt_matchFold_matched hA hR hp
        rw [hpid] at htup
        have h6m := (CentroidTracker.obsAt_eq_tuple htup).2.2.2.2.2.1
        have h6u := (CentroidTracker.obsAt_components hobs).2.2.2.2.2.1
        rw [h6u, h6m] at hr
        right
        have hlen := (CentroidTracker.pairsOf_lt hR hp).2
        rw [← Option.some_inj.mp hr, List.getD_eq_getElem _ _ hlen]
        exact List.getElem_mem hlen
      · have hT : s.tracked_centroids ≠ [] :=
          CentroidTracker.tracked_ne_nil_of_mem hidk
        by_cases h3 : rs_in.length ≤ s.tracked_centroids.length
        · obtain ⟨m, hm⟩ := alGet_isSome_of_mem (by rw [hA.1]; exact hidk)
          have heff := CentroidTracker.obsAt_update_missed hA hidk hm hmatch
            (Or.inr ⟨h1, h3⟩)
          by_cases hgt : (((m + 1 : ℕ) : ℤ) > s.max_missing_count)
          · have h6 := (CentroidTracker.obsAt_eq_tuple (heff.1 hgt)).2.2.2.2.2.1
            rw [h6] at hr
            exact absurd hr (by simp)
          · have h6 := (CentroidTracker.obsAt_eq_tuple (heff.2 hgt)).2.2.2.2.2.1
            rw [h6] at hr
            exact Or.inl hr
        · have hunmid : ∀ p ∈ s.pairsOf rs_in,
              (alKeys s.tracked_centroids).getD p.1 0 ≠ id := by
            intro p hp hh
            apply hmatch
            unfold CentroidTracker.matchedIds
            rw [CentroidTracker.matchPairs_eq h1 hT, List.mem_map]
            exact ⟨p, hp, hh⟩
          have hobsM : (s.matchFold rs_in).obsAt id = s.obsAt id := by
            unfold CentroidTracker.matchFold
            exact CentroidTracker.foldl_obs _ (fun t => t.obsAt id) _ s
              (fun t p hp => CentroidTracker.obsAt_applyMatch_ne
                (fun hh => hunmid p hp hh.symm))
          have hltM : id < (s.matchFold rs_in).next_id := by
            rw [CentroidTracker.next_id_matchFold]
            exact hA.2.2.2.2.2.2.2 id hidk
          rw [CentroidTracker.update_match_cols h1 hT h3] at hr
          have hreg := (CentroidTracker.obsAt_foldl_register_old
            (fun c => ((rs_in.map centroidOf).getD c (0, 0)))
            (CentroidTracker.unused_cols (s.pairsOf rs_in) rs_in.length)
            (s.matchFold rs_in) hltM).1
          have h6r := (CentroidTracker.obsAt_components hreg).2.2.2.2.2.1
          have h6m := (CentroidTracker.obsAt_components hobsM).2.2.2.2.2.1
          rw [h6r, h6m] at hr
          exact Or.inl hr
  · intro id hmid
    obtain ⟨p, hp, hpid, hobs, hR, hT⟩ :=
      CentroidTracker.obsAt_update_matched hA hmid
    have htup := CentroidTracker.obsAt_matchFold_matched hA hR hp
    rw [hpid] at htup
    have h6m := (CentroidTracker.obsAt_eq_tuple htup).2.2.2.2.2.1
    have h6u := (CentroidTracker.obsAt_components hobs).2.2.2.2.2.1
    have hlen := (CentroidTracker.pairsOf_lt hR hp).2
    refine ⟨rs_in.getD p.2 (0, 0, 0, 0), ?_, ?_⟩
    · rw [List.getD_eq_getElem _ _ hlen]
      exact List.getElem_mem hlen
    · rw [h6u, h6m]

theorem c9_placeholder_rect_witness :
    ((CentroidTracker.init 50 50 10).update [(0, 0, 2, 2)]).Aligned ∧
    (∀ id, id ∉ alKeys ((CentroidTracker.init 50 50 10).update
        [(0, 0, 2, 2)]).tracked_centroids →
      id ∈ alKeys (((CentroidTracker.init 50 50 10).update
        [(0, 0, 2, 2)]).update
          [(10, 10, 12, 12), (200, 200, 202, 202)]).tracked_centroids →
      alGet (((CentroidTracker.init 50 50 10).update [(0, 0, 2, 2)]).update
          [(10, 10, 12, 12), (200, 200, 202, 202)]).rects id
        = some ((0, 0, 0, 0) : Rect)) ∧
    (∀ id ∈ alKeys ((CentroidTracker.init 50 50 10).update
        [(0, 0, 2, 2)]).tracked_centroids,
      id ∉ ((CentroidTracker.init 50 50 10).update
        [(0, 0, 2, 2)]).matchedIds [(10, 10, 12, 12), (200, 200, 202, 202)] →
      id ∈ alKeys (((CentroidTracker.init 50 50 10).update
        [(0, 0, 2, 2)]).update
          [(10, 10, 12, 12), (200, 200, 202, 202)]).tracked_centroids →
      alGet (((CentroidTracker.init 50 50 10).update [(0, 0, 2, 2)]).update
          [(10, 10, 12, 12), (200, 200, 202, 202)]).rects id
        = alGet ((CentroidTracker.init 50 50 10).update
            [(0, 0, 2, 2)]).rects id) ∧
    (∀ id ∈ alKeys ((CentroidTracker.init 50 50 10).update
        [(0, 0, 2, 2)]).tracked_centroids, ∀ r : Rect,
      alGet (((CentroidTracker.init 50 50 10).update [(0, 0, 2, 2)]).update
          [(10, 10, 12, 12), (200, 200, 202, 202)]).rects id = some r →
      alGet ((CentroidTracker.init 50 50 10).update
        [(0, 0, 2, 2)]).rects id = some r ∨
        r ∈ ([(10, 10, 12, 12), (200, 200, 202, 202)] : List Rect)) ∧
    (∀ id ∈ ((CentroidTracker.init 50 50 10).update
        [(0, 0, 2, 2)]).matchedIds [(10, 10, 12, 12), (200, 200, 202, 202)],
      ∃ r ∈ ([(10, 10, 12, 12), (200, 200, 202, 202)] : List Rect),
        alGet (((CentroidTracker.init 50 50 10).update
          [(0, 0, 2, 2)]).update
            [(10, 10, 12, 12), (200, 200, 202, 202)]).rects id = some r) :=
  ⟨by with_unfolding_all decide,
   c9_placeholder_rect ((CentroidTracker.init 50 50 10).update [(0, 0, 2, 2)])
     [(10, 10, 12, 12), (200, 200, 202, 202)] (by with_unfolding_all decide)⟩

/-! ### Claim C10 -/

theorem MovingAverage.initialise_zero_update_average {V : Type}
    [AddCommGroup V] [Module ℚ V] {W : ℕ} (hW : 0 < W) (v : V) :
    ((MovingAverage.initialise W (0 : V)).update v).average
      = ((W : ℚ))⁻¹ • v := by
  show (MovingAverage.initialise W (0 : V)).average
      + (((MovingAverage.initialise W (0 : V)).window : ℚ))⁻¹ •
        (v - (MovingAverage.initialise W (0 : V)).entry_deque.headD 0)
      = ((W : ℚ))⁻¹ • v
  rw [MovingAverage.initialise_zero_deque]
  rcases W with _ | W
  · exact absurd hW (lt_irrefl 0)
  · rw [List.replicate_succ]
    show (0 : V) + (((W + 1 : ℕ) : ℚ))⁻¹ • (v - 0) = _
    rw [sub_zero, zero_add]

namespace CentroidTracker

theorem cfg_matchFold (s : CentroidTracker) (rs_in : List Rect) :
    (s.matchFold rs_in).cfg = s.cfg := by
  unfold matchFold
  exact foldl_obs _ cfg _ s (fun u p _ => cfg_applyMatch _ _ _ u p)

end CentroidTracker

/-- C10: a track's smoothing state is created at registration as a
MovingAverage whose window is seeded entirely with zero vectors (and its
reported smoothed velocity is the zero vector); the smoothing state is
untouched by updates in which the track is not matched; and when a track
whose smoothing state is still the zero-seeded one is matched, the smoothed
velocity reported in the snapshot equals the instantaneous velocity of that
match divided by the configured smoothing window size. -/
theorem c10_first_match_smoothed (s : CentroidTracker) (rs_in : List Rect)
    (hA : s.Aligned) (hw : 0 < s.smoothed_vel_window) :
    (∀ id, id ∉ alKeys s.tracked_centroids →
      id ∈ alKeys (s.update rs_in).tracked_centroids →
      alGet (s.update rs_in).smoothed_vel_handlers id
        = some (MovingAverage.initialise s.smoothed_vel_window (0, 0)) ∧
      alGet (s.update rs_in).smoothed_vels id = some ((0 : ℚ), (0 : ℚ))) ∧
    (∀ id ∈ alKeys s.tracked_centroids, id ∉ s.matchedIds rs_in →
      id ∈ alKeys (s.update rs_in).tracked_centroids →
      alGet (s.update rs_in).smoothed_vel_handlers id
        = alGet s.smoothed_vel_handlers id) ∧
    (∀ id ∈ s.matchedIds rs_in,
      alGet s.smoothed_vel_handlers id
        = some (MovingAverage.initialise s.smoothed_vel_window (0, 0)) →
      ∃ v : ℚ × ℚ, alGet (s.update rs_in).vels id = some v ∧
        alGet (s.update rs_in).smoothed_vels id
          = some (((s.smoothed_vel_window : ℚ))⁻¹ • v)) := by
  refine ⟨?_, ?_, ?_⟩
  · intro id hout hin
    by_cases h1 : rs_in = []
    · subst h1
      rw [CentroidTracker.update_nil] at hin
      exact absurd (CentroidTracker.mem_tracked_foldl_markMissing
        (fun j => j) (alKeys s.missing_count) s hin) hout
    · by_cases h2 : s.tracked_centroids = []
      · rw [CentroidTracker.update_bootstrap h1 h2] at hin ⊢
        obtain ⟨c, hc⟩ := CentroidTracker.obsAt_foldl_register_new
          (fun c => c) (rs_in.map centroidOf) s hA hout hin
        have ht := CentroidTracker.obsAt_eq_tuple hc
        exact ⟨ht.2.2.2.1, ht.2.2.1⟩
      · by_cases h3 : rs_in.length ≤ s.tracked_centroids.length
        · rw [CentroidTracker.update_match_rows h1 h2 h3] at hin
          have hmem := CentroidTracker.mem_tracked_foldl_markMissing
            (fun r => (alKeys s.tracked_centroids).getD r 0) _ _ hin
          rw [(CentroidTracker.matchFold_aligned hA h1).2.1] at hmem
          exact absurd hmem hout
        · rw [CentroidTracker.update_match_cols h1 h2 h3] at hin ⊢
          have hAm := (CentroidTracker.matchFold_aligned hA h1).1
          have houtm : id ∉ alKeys (s.matchFold rs_in).tracked_centroids := by
            rw [(CentroidTracker.matchFold_aligned hA h1).2.1]
            exact hout
          obtain ⟨c, hc⟩ := CentroidTracker.obsAt_foldl_register_new
            (fun c => ((rs_in.map centroidOf).getD c (0, 0))) _ _ hAm houtm hin
          have ht := CentroidTracker.obsAt_eq_tuple hc
          have hwm : (s.matchFold rs_in).smoothed_vel_window
              = s.smoothed_vel_window :=
            congrArg (fun q => q.1) (CentroidTracker.cfg_matchFold s rs_in)
          rw [hwm] at ht
          exact ⟨ht.2.2.2.1, ht.2.2.1⟩
  · intro id hidk hunm hin
    by_cases h1 : rs_in = []
    · subst h1
      obtain ⟨m, hm⟩ := alGet_isSome_of_mem (by rw [hA.1]; exact hidk)
      have heff := CentroidTracker.obsAt_update_missed hA hidk hm hunm
        (Or.inl rfl)
      by_cases hgt : (((m + 1 : ℕ) : ℤ) > s.max_missing_count)
      · have h1c := (CentroidTracker.obsAt_eq_tuple (heff.1 hgt)).1
        rw [← alGet_isSome_iff, h1c] at hin
        exact absurd hin (by simp)
      · exact (CentroidTracker.obsAt_eq_tuple (heff.2 hgt)).2.2.2.1
    · have hT : s.tracked_centroids ≠ [] :=
        CentroidTracker.tracked_ne_nil_of_mem hidk
      by_cases h3 : rs_in.length ≤ s.tracked_centroids.length
      · obtain ⟨m, hm⟩ := alGet_isSome_of_mem (by rw [hA.1]; exact hidk)
        have heff := CentroidTracker.obsAt_update_missed hA hidk hm hunm
          (Or.inr ⟨h1, h3⟩)
        by_cases hgt : (((m + 1 : ℕ) : ℤ) > s.max_missing_count)
        · have h1c := (CentroidTracker.obsAt_eq_tuple (heff.1 hgt)).1
          rw [← alGet_isSome_iff, h1c] at hin
          exact absurd hin (by simp)
        · exact (CentroidTracker.obsAt_eq_tuple (heff.2 hgt)).2.2.2.1
      · have hunmid : ∀ p ∈ s.pairsOf rs_in,
            (alKeys s.tracked_centroids).getD p.1 0 ≠ id := by
          intro p hp hh
          apply hunm
          unfold CentroidTracker.matchedIds
          rw [CentroidTracker.matchPairs_eq h1 hT, List.mem_map]
          exact ⟨p, hp, hh⟩
        have hobsM : (s.matchFold rs_in).obsAt id = s.obsAt id := by
          unfold CentroidTracker.matchFold
          exact CentroidTracker.foldl_obs _ (fun t => t.obsAt id) _ s
            (fun t p hp => CentroidTracker.obsAt_applyMatch_ne
              (fun hh => hunmid p hp hh.symm))
        have hltM : id < (s.matchFold rs_in).next_id := by
          rw [CentroidTracker.next_id_matchFold]
          exact hA.2.2.2.2.2.2.2 id hidk
        rw [CentroidTracker.update_match_cols h1 hT h3]
        have hreg := (CentroidTracker.obsAt_foldl_register_old
          (fun c => ((rs_in.map centroidOf).getD c (0, 0)))
          (CentroidTracker.unused_cols (s.pairsOf rs_in) rs_in.length)
          (s.matchFold rs_in) hltM).1
        rw [(CentroidTracker.obsAt_components hreg).2.2.2.1]
        exact (CentroidTracker.obsAt_components hobsM).2.2.2.1
  · intro id hmid hpristine
    obtain ⟨p, hp, hpid, hobs, hR, hT⟩ :=
      CentroidTracker.obsAt_update_matched hA hmid
    have htup := CentroidTracker.obsAt_matchFold_matched hA hR hp
    rw [hpid] at htup
    have ht := CentroidTracker.obsAt_eq_tuple htup
    have hu := CentroidTracker.obsAt_components hobs
    refine ⟨(((((alGet s.tracked_centroids id).getD (0, 0)).1
        - ((rs_in.map centroidOf).getD p.2 (0, 0)).1 : ℤ) : ℚ),
      ((((alGet s.tracked_centroids id).getD (0, 0)).2
        - ((rs_in.map centroidOf).getD p.2 (0, 0)).2 : ℤ) : ℚ)), ?_, ?_⟩
    · rw [hu.2.1, ht.2.1]
    · rw [hu.2.2.1, ht.2.2.1, hpristine]
      rw [Option.getD_some]
      exact congrArg some (MovingAverage.initialise_zero_update_average hw _)

theorem c10_first_match_smoothed_witness :
    ((CentroidTracker.init 50 50 10).update [(0, 0, 2, 2)]).Aligned ∧
    0 < ((CentroidTracker.init 50 50 10).update
      [(0, 0, 2, 2)]).smoothed_vel_window ∧
    ((∀ id, id ∉ alKeys ((CentroidTracker.init 50 50 10).update
        [(0, 0, 2, 2)]).tracked_centroids →
      id ∈ alKeys (((CentroidTracker.init 50 50 10).update
        [(0, 0, 2, 2)]).update [(10, 10, 12, 12)]).tracked_centroids →
      alGet (((CentroidTracker.init 50 50 10).update [(0, 0, 2, 2)]).update
          [(10, 10, 12, 12)]).smoothed_vel_handlers id
        = some (MovingAverage.initialise ((CentroidTracker.init 50 50 10).update
            [(0, 0, 2, 2)]).smoothed_vel_window (0, 0)) ∧
      alGet (((CentroidTracker.init 50 50 10).update [(0, 0, 2, 2)]).update
          [(10, 10, 12, 12)]).smoothed_vels id = some ((0 : ℚ), (0 : ℚ))) ∧
    (∀ id ∈ alKeys ((CentroidTracker.init 50 50 10).update
        [(0, 0, 2, 2)]).tracked_centroids,
      id ∉ ((CentroidTracker.init 50 50 10).update
        [(0, 0, 2, 2)]).matchedIds [(10, 10, 12, 12)] →
      id ∈ alKeys (((CentroidTracker.init 50 50 10).update
        [(0, 0, 2, 2)]).update [(10, 10, 12, 12)]).tracked_centroids →
      alGet (((CentroidTracker.init 50 50 10).update [(0, 0, 2, 2)]).update
          [(10, 10, 12, 12)]).smoothed_vel_handlers id
        = alGet ((CentroidTracker.init 50 50 10).update
            [(0, 0, 2, 2)]).smoothed_vel_handlers id) ∧
    (∀ id ∈ ((CentroidTracker.init 50 50 10).update
        [(0, 0, 2, 2)]).matchedIds [(10, 10, 12, 12)],
      alGet ((CentroidTracker.init 50 50 10).update
          [(0, 0, 2, 2)]).smoothed_vel_handlers id
        = some (MovingAverage.initialise ((CentroidTracker.init 50 50 10).update
            [(0, 0, 2, 2)]).smoothed_vel_window (0, 0)) →
      ∃ v : ℚ × ℚ,
        alGet (((CentroidTracker.init 50 50 10).update [(0, 0, 2, 2)]).update
          [(10, 10, 12, 12)]).vels id = some v ∧
        alGet (((CentroidTracker.init 50 50 10).update [(0, 0, 2, 2)]).update
          [(10, 10, 12, 12)]).smoothed_vels id
          = some ((((CentroidTracker.init 50 50 10).update
              [(0, 0, 2, 2)]).smoothed_vel_window : ℚ)⁻¹ • v))) :=
  ⟨by with_unfolding_all decide, by with_unfolding_all decide,
   c10_first_match_smoothed
     ((CentroidTracker.init 50 50 10).update [(0, 0, 2, 2)])
     [(10, 10, 12, 12)] (by with_unfolding_all decide)
     (by with_unfolding_all decide)⟩

/-! ### Claim C6 -/

/-- Consecutive detections' computed centroids are each within `md` of the
previous one (expressed on squared distances, so exactly `distance < md`). -/
def closeRun (md : ℚ) : List Rect → Bool
  | a :: b :: rest =>
      decide (((squaredDist (centroidOf a) (centroidOf b) : ℤ) : ℚ)
        < md * md) && closeRun md (b :: rest)
  | _ => true

/-- The snapshots returned by a sequence of single-detection updates,
starting from (and including) the state `s`. -/
def trackStates (s : CentroidTracker) : List Rect → List CentroidTracker
  | [] => [s]
  | r :: rs => s :: trackStates (s.update [r]) rs

namespace CentroidTracker

/-- A tracker following exactly one track, with id 0 and centroid `c`. -/
def SingleTrack (c : ℤ × ℤ) (s : CentroidTracker) : Prop :=
  s.tracked_centroids = [(0, c)] ∧
  (∃ v, s.vels = [(0, v)]) ∧
  (∃ sv, s.smoothed_vels = [(0, sv)]) ∧
  (∃ h, s.smoothed_vel_handlers = [(0, h)]) ∧
  (∃ cf, s.confidences = [(0, cf)]) ∧
  (∃ rc, s.rects = [(0, rc)]) ∧
  (∃ mc, s.missing_count = [(0, mc)])

theorem selectPairs_nil (tooFar : ℕ → ℕ → Bool) (uR uC : List ℕ) :
    selectPairs tooFar [] uR uC = [] := rfl

theorem selectPairs_cons_accept (tooFar : ℕ → ℕ → Bool) (r c : ℕ)
    (rest : List (ℕ × ℕ)) (uR uC : List ℕ) (h1 : r ∉ uR) (h2 : c ∉ uC)
    (h3 : tooFar r c = false) :
    selectPairs tooFar ((r, c) :: rest) uR uC
      = (r, c) :: selectPairs tooFar rest (r :: uR) (c :: uC) := by
  unfold selectPairs
  rw [if_neg (by rintro (h | h); exacts [h1 h, h2 h])]
  rw [if_neg (by rw [h3]; exact Bool.false_ne_true)]
  rcases rest with _ | ⟨q, rest⟩ <;> rfl

theorem pairsOf_singleton {s : CentroidTracker} {c : ℤ × ℤ} {r : Rect}
    (ht : s.tracked_centroids = [(0, c)]) (hmd : 0 ≤ s.max_distance)
    (hclose : ((squaredDist c (centroidOf r) : ℤ) : ℚ)
      < s.max_distance * s.max_distance) :
    s.pairsOf [r] = [(0, 0)] := by
  have htf : distGtMax (squaredDist c (centroidOf r)) s.max_distance
      = false := by
    unfold distGtMax
    rw [decide_eq_false (not_lt.mpr hmd),
      decide_eq_false (not_lt.mpr (le_of_lt hclose))]
    rfl
  have hred : s.pairsOf [r] = selectPairs
      (fun r' c' => distGtMax
        (((dMat [c] [centroidOf r]).getD r' []).getD c' 0) s.max_distance)
      [(0, 0)] [] [] := by
    unfold pairsOf matchPairsOf
    rw [ht]
    rfl
  rw [hred]
  rw [selectPairs_cons_accept _ _ _ _ _ _ (List.not_mem_nil 0)
    (List.not_mem_nil 0) htf]
  rw [selectPairs_nil]

theorem alSet_singleton {α : Type} (x y : α) :
    alSet [((0 : ℕ), x)] 0 y = [(0, y)] := rfl

theorem singleTrack_update {s : CentroidTracker} {c : ℤ × ℤ} {r : Rect}
    (hS : SingleTrack c s) (hmd : 0 ≤ s.max_distance)
    (hclose : ((squaredDist c (centroidOf r) : ℤ) : ℚ)
      < s.max_distance * s.max_distance) :
    SingleTrack (centroidOf r) (s.update [r]) := by
  obtain ⟨ht, ⟨v, hv⟩, ⟨sv, hsv⟩, ⟨h, hh⟩, ⟨cf, hcf⟩, ⟨rc, hrc⟩, ⟨mc, hmc⟩⟩ := hS
  have hT : s.tracked_centroids ≠ [] := by
    rw [ht]; exact List.cons_ne_nil _ _
  have hpairs : s.pairsOf [r] = [(0, 0)] := pairsOf_singleton ht hmd hclose
  have hlen : s.tracked_centroids.length = 1 := by rw [ht]; rfl
  rw [update_match_rows (List.cons_ne_nil r []) hT
    (by rw [hlen]; exact Nat.le_refl 1)]
  have hur : unused_rows (s.pairsOf [r]) s.tracked_centroids.length = [] := by
    rw [hpairs, hlen]
    rfl
  rw [hur, List.foldl_nil]
  unfold matchFold
  rw [hpairs, List.foldl_cons, List.foldl_nil]
  unfold applyMatch
  rw [ht, hv, hsv, hh, hcf, hrc, hmc]
  dsimp only
  exact ⟨alSet_singleton _ _, ⟨_, alSet_singleton _ _⟩,
    ⟨_, alSet_singleton _ _⟩, ⟨_, alSet_singleton _ _⟩,
    ⟨_, alSet_singleton _ _⟩, ⟨_, alSet_singleton _ _⟩,
    ⟨_, alSet_singleton _ _⟩⟩

theorem singleTrack_first (mm : ℤ) (md : ℚ) (w : ℕ) (r0 : Rect) :
    SingleTrack (centroidOf r0) ((init mm md w).update [r0]) := by
  rw [update_bootstrap (List.cons_ne_nil r0 []) rfl]
  rw [List.map_cons, List.map_nil, List.foldl_cons, List.foldl_nil]
  exact ⟨rfl, ⟨_, rfl⟩, ⟨_, rfl⟩, ⟨_, rfl⟩, ⟨_, rfl⟩, ⟨_, rfl⟩, ⟨_, rfl⟩⟩

theorem singleTrack_keys {c : ℤ × ℤ} {s : CentroidTracker}
    (hS : SingleTrack c s) : alKeys s.tracked_centroids = [0] := by
  rw [hS.1]
  rfl

end CentroidTracker

theorem closeRun_aux {md : ℚ} (hmd : 0 ≤ md) :
    ∀ (rs : List Rect) (rp : Rect) (s : CentroidTracker),
      CentroidTracker.SingleTrack (centroidOf rp) s → s.max_distance = md →
      closeRun md (rp :: rs) = true →
      ∀ t ∈ trackStates s rs, alKeys t.tracked_centroids = [0] := by
  intro rs
  induction rs with
  | nil =>
      intro rp s hS _ _ t ht
      unfold trackStates at ht
      rw [List.mem_singleton] at ht
      subst ht
      exact CentroidTracker.singleTrack_keys hS
  | cons r rs ih =>
      intro rp s hS hmds hrun t ht
      unfold closeRun at hrun
      rw [Bool.and_eq_true, decide_eq_true_eq] at hrun
      unfold trackStates at ht
      rw [List.mem_cons] at ht
      rcases ht with ht | ht
      · subst ht
        exact CentroidTracker.singleTrack_keys hS
      · have hS' := CentroidTracker.singleTrack_update hS
          (by rw [hmds]; exact hmd) (by rw [hmds]; exact hrun.1)
        have hmds' : (s.update [r]).max_distance = md := by
          have := congrArg (fun q => q.2.2) (CentroidTracker.cfg_update s [r])
          exact (by exact this : (s.update [r]).max_distance
            = s.max_distance).trans hmds
        exact ih r (s.update [r]) hS' hmds' hrun.2 t ht

/-- C6: for every sequence of update calls each containing exactly one
detection, where the detection's computed centroid moves by strictly less
than `max_distance` between consecutive frames (and `max_distance` is
non-negative), the single tracked object keeps the integer id 0 in every
returned snapshot across the whole sequence: each snapshot's key set is
exactly `[0]`. -/
theorem c6_identity_stability (mm : ℤ) (md : ℚ) (w : ℕ) (r0 : Rect)
    (rs : List Rect) (hmd : 0 ≤ md) (hrun : closeRun md (r0 :: rs) = true) :
    ∀ t ∈ trackStates ((CentroidTracker.init mm md w).update [r0]) rs,
      alKeys t.tracked_centroids = [0] := by
  apply closeRun_aux hmd rs r0
  · exact CentroidTracker.singleTrack_first mm md w r0
  · exact congrArg (fun q => q.2.2)
      (CentroidTracker.cfg_update (CentroidTracker.init mm md w) [r0])
  · exact hrun

theorem c6_identity_stability_witness :
    (0 : ℚ) ≤ 50 ∧
    closeRun 50 [(0, 0, 2, 2), (10, 10, 12, 12), (30, 30, 32, 32)] = true ∧
    ∀ t ∈ trackStates ((CentroidTracker.init 50 50 10).update [(0, 0, 2, 2)])
        [(10, 10, 12, 12), (30, 30, 32, 32)],
      alKeys t.tracked_centroids = [0] :=
  ⟨by with_unfolding_all decide, by with_unfolding_all decide,
   c6_identity_stability 50 50 10 (0, 0, 2, 2)
     [(10, 10, 12, 12), (30, 30, 32, 32)] (by with_unfolding_all decide)
     (by with_unfolding_all decide)⟩
